import Mathlib

/-!
Verification of the tsstore telemetry collector clients
(`utilities/trv-pi-001/scripts/sensehat-to-tsstore.py` and
`utilities/trv-pi-001/scripts/system-stats-to-tsstore.py`).

Both scripts implement the same streaming-write client: connect to a Unix
socket, authenticate with `AUTH <store> <key>\n`, send one JSON line per
sample, parse `OK ...` acknowledgements, tear down and reconnect with
exponential backoff on any error, and send `QUIT\n` on interrupt.

The embedding below models:
* the Python string operations the scripts use on acknowledgement lines
  (`str.strip`, `str.startswith("OK")`, `str.split`, `int(...)`);
* the sequence of socket operations in `connect_and_auth` / `send_reading`,
  with the timeout in effect at each operation;
* the `main` loop of either script as a step function on an explicit state
  (live socket, reconnect delay, sample counter, and a ledger of opened /
  closed transports), driven by per-iteration environment outcomes;
* the JSON line encoding `json.dumps(data) + "\n"` for flat records of
  string keys and float values, together with a JSON decoder, for the
  protocol round-trip property.  Numeric values are modelled as the decimal
  literals that `json.dumps` emits for finite floats (sign, integer digits,
  optional fraction, optional exponent); Python guarantees the
  float-to-shortest-repr conversion is injective, so literal equality models
  structural equality of the original float mappings.
-/

namespace TsStore

/-- Python whitespace test used by `str.strip` / `str.split` for the ASCII
range: space, tab, newline, carriage return, vertical tab, form feed
(code points 32, 9, 10, 13, 11, 12). -/
def pyWs (c : Char) : Bool :=
  c.toNat == 32 || c.toNat == 9 || c.toNat == 10 || c.toNat == 13 ||
    c.toNat == 11 || c.toNat == 12

/-- Decimal digit test (`0` to `9`). -/
def isDigitC (c : Char) : Bool :=
  48 ≤ c.toNat && c.toNat ≤ 57

/-- Model of Python `str.strip()`: drop leading and trailing whitespace. -/
def pyStrip (cs : List Char) : List Char :=
  ((cs.dropWhile pyWs).reverse.dropWhile pyWs).reverse

/-- Worker for `pySplit`: `acc` holds the reversed characters of the word
being scanned. -/
def pySplitAux : List Char → List Char → List (List Char)
  | [], acc => if acc.isEmpty then [] else [acc.reverse]
  | c :: rest, acc =>
    if pyWs c then
      if acc.isEmpty then pySplitAux rest [] else acc.reverse :: pySplitAux rest []
    else pySplitAux rest (c :: acc)

/-- Model of Python `str.split()` with no arguments: split on runs of
whitespace, never producing empty words. -/
def pySplit (cs : List Char) : List (List Char) :=
  pySplitAux cs []

/-- Numeric value of a list of decimal digit characters. -/
def natOfDigits (ds : List Char) : Nat :=
  ds.foldl (fun a c => 10 * a + (c.toNat - 48)) 0

/-- Digit tail of a Python decimal integer literal: digits with single
underscores allowed strictly between digits, accumulating the value.
Mirrors `int(str)` after the first digit has been consumed. -/
def pyDigitsUS : List Char → Nat → Option Nat
  | [], acc => some acc
  | c :: rest, acc =>
    if c = '_' then
      match rest with
      | [] => none
      | c2 :: rest2 =>
        if isDigitC c2 then pyDigitsUS rest2 (10 * acc + (c2.toNat - 48)) else none
    else if isDigitC c then pyDigitsUS rest (10 * acc + (c.toNat - 48))
    else none

/-- Unsigned part of Python `int(str)`: a first digit followed by digits
with optional single internal underscores.  (ASCII digits only; the store
acknowledgements this is applied to are ASCII.) -/
def pyIntVal : List Char → Option Nat
  | [] => none
  | c :: rest => if isDigitC c then pyDigitsUS rest (c.toNat - 48) else none

/-- Model of Python `int(token)` on a whitespace-free token: optional sign,
then a decimal digit string with optional single internal underscores. -/
def pyInt : List Char → Option Int
  | [] => none
  | c :: rest =>
    if c = '+' then (pyIntVal rest).map Int.ofNat
    else if c = '-' then (pyIntVal rest).map (fun n => -(Int.ofNat n))
    else (pyIntVal (c :: rest)).map Int.ofNat

/-- Test used by both scripts on a stripped response:
`response.startswith("OK")`. -/
def startsOK : List Char → Bool
  | c1 :: c2 :: _ => c1 == 'O' && c2 == 'K'
  | _ => false

/-- Result of `send_reading`'s acknowledgement handling:
`failedResp` models the `Exception("Write failed: ...")` raised for a
response not starting with `OK`; `intError` models the `ValueError`
raised by `int(parts[1])` on a non-numeric token; `ack ts` models a normal
return (`ts = none` models returning `None`). -/
inductive WriteAck where
  | failedResp
  | intError
  | ack (ts : Option Int)
deriving DecidableEq

/-- Embedding of the acknowledgement handling in `send_reading`
(sensehat-to-tsstore.py lines 40-48, system-stats-to-tsstore.py lines
53-58): strip the received text, fail unless it starts with `OK`, then
split on whitespace and return `int(parts[1])` when there are at least two
parts, `None` otherwise. -/
def sendReadingAck (resp : List Char) : WriteAck :=
  if startsOK (pyStrip resp) then
    match pySplit (pyStrip resp) with
    | [] => .ack none
    | [_] => .ack none
    | _ :: p1 :: _ =>
      match pyInt p1 with
      | some n => .ack (some n)
      | none => .intError
  else .failedResp

/-- Modelled from the spec's words for the write success response
`OK <integer_timestamp>\n`: after stripping, the line must be the success
token, then at least one whitespace character, then a nonempty run of
decimal digits and nothing else; the returned value is that integer. -/
def specOkTimestamp (line : List Char) : Option Nat :=
  match pyStrip line with
  | c1 :: c2 :: c3 :: rest =>
    if c1 = 'O' ∧ c2 = 'K' ∧ pyWs c3 then
      if !((c3 :: rest).dropWhile pyWs).isEmpty &&
          ((c3 :: rest).dropWhile pyWs).all isDigitC then
        some (natOfDigits ((c3 :: rest).dropWhile pyWs))
      else none
    else none
  | _ => none

/-- Embedding of the authentication response classification in
`connect_and_auth` (both scripts): the stripped response is successful iff
it starts with `OK`. -/
def connectAuthOK (resp : List Char) : Bool :=
  startsOK (pyStrip resp)

/-- Modelled from the spec's words for auth classification: the response
line is successful iff it starts with the two-letter success token followed
by whitespace (a bare `OK` line, i.e. `OK\n` before stripping, is also a
success; anything directly glued to the token is not). -/
def specAuthOK : List Char → Bool
  | [c1, c2] => c1 == 'O' && c2 == 'K'
  | c1 :: c2 :: c3 :: _ => c1 == 'O' && c2 == 'K' && pyWs c3
  | _ => false

/-! ### Socket operations and timeouts (`connect_and_auth`, `send_reading`) -/

/-- Kinds of socket operations performed by the scripts. -/
inductive SockOp where
  | create
  | connectOp
  | setTimeoutOp (t : Nat)
  | sendOp
  | recvOp
deriving DecidableEq

/-- Straight-line sequence of socket operations in `connect_and_auth`
(both scripts): `socket.socket(...)`, `sock.connect(socket_path)`,
`sock.settimeout(5.0)`, `sock.send(auth_cmd)`, `sock.recv(1024)`. -/
def connectAndAuthOps : List SockOp :=
  [.create, .connectOp, .setTimeoutOp 5, .sendOp, .recvOp]

/-- Socket operations in `send_reading`: `sock.send(line)`, `sock.recv(1024)`. -/
def sendReadingOps : List SockOp :=
  [.sendOp, .recvOp]

/-- Pair each operation with the timeout in effect when it runs, given the
timeout in effect on entry (`none` = blocking, no bound).  A `settimeout`
changes the timeout for the operations after it (and is tagged with its own
new value). -/
def opsWithTimeout (cur : Option Nat) : List SockOp → List (SockOp × Option Nat)
  | [] => []
  | .setTimeoutOp t :: ops => (.setTimeoutOp t, some t) :: opsWithTimeout (some t) ops
  | op :: ops => (op, cur) :: opsWithTimeout cur ops

/-- Timeouts in effect during `connect_and_auth`.  A fresh Python socket has
no timeout (`socket.getdefaulttimeout()` is `None` and the scripts never
change it), so the sequence starts in blocking mode. -/
def connectOpTimeouts : List (SockOp × Option Nat) :=
  opsWithTimeout none connectAndAuthOps

/-- Timeouts in effect during `send_reading`, which runs on the socket
returned by `connect_and_auth` (timeout 5 already set). -/
def sendReadingOpTimeouts : List (SockOp × Option Nat) :=
  opsWithTimeout (some 5) sendReadingOps

/-! ### The `main` loop as a state machine

Either script's `main` runs `while True` with a body that (a) opens and
authenticates a connection when none is live, (b) samples, (c) sends the
sample, and handles `KeyboardInterrupt` (send `QUIT`, close, exit) and any
other `Exception` (close the live socket if any, sleep `reconnect_delay`,
double the delay capped at 60).  The environment of one iteration decides
which of these outcomes happens; transports are numbered in order of
creation so that open/close bookkeeping is explicit. -/

/-- Outcome of a `connect_and_auth` call: transport-level connect failure,
authentication rejection, or success. -/
inductive ConnRes where
  | connFail
  | authFail
  | connOk
deriving DecidableEq

/-- Outcome of `send_reading` on a live connection. -/
inductive WRes where
  | wFail
  | wOk
deriving DecidableEq

/-- Environment choices for one loop iteration: what a connect attempt
would return, whether the sensor/stat acquisition succeeds, and what the
write would return. -/
structure Env where
  conn : ConnRes
  sampleOk : Bool
  write : WRes
deriving DecidableEq

/-- One iteration of the driving loop: either a `KeyboardInterrupt` arrives
(with the indicated fate of the best-effort `QUIT` send), or the body runs
against an environment. -/
inductive Iter where
  | interrupt (quitOk : Bool)
  | run (e : Env)
deriving DecidableEq

/-- State of the driving loop.  `sock` is the id of the live authenticated
transport, if any; `nOpened` counts transports created so far (ids are
`0, ..., nOpened - 1`); `authed` lists ids that `connect_and_auth` returned
successfully; `closed` lists ids on which `close` was called (with
multiplicity); `quitAttempts` counts `QUIT` sends attempted at shutdown. -/
structure LoopState where
  sock : Option Nat
  reconnectDelay : Nat
  sampleCount : Nat
  nOpened : Nat
  authed : List Nat
  closed : List Nat
  quitAttempts : Nat
  terminated : Bool
deriving DecidableEq

/-- Initial state of `main`: `sock = None`, `reconnect_delay = 1`,
`sample_count = 0`, nothing opened or closed. -/
def initState : LoopState :=
  { sock := none, reconnectDelay := 1, sampleCount := 0, nOpened := 0,
    authed := [], closed := [], quitAttempts := 0, terminated := false }

/-- The `except Exception` handler with a live socket `i`: close it, set
`sock = None`, sleep `reconnect_delay` (returned as the second component),
then `reconnect_delay = min(reconnect_delay * 2, 60)`. -/
def tearDown (s : LoopState) (i : Nat) : LoopState × Option Nat :=
  ({ s with sock := none, closed := i :: s.closed,
            reconnectDelay := min (s.reconnectDelay * 2) 60 },
   some s.reconnectDelay)

/-- Body of the iteration once a live authenticated socket `i` exists:
acquisition failure or write failure hit the generic handler (teardown and
backoff); a successful write increments the counter and sleeps the sample
interval (not modelled as backoff). -/
def afterConn (s : LoopState) (i : Nat) (e : Env) : LoopState × Option Nat :=
  if e.sampleOk then
    match e.write with
    | .wFail => tearDown s i
    | .wOk => ({ s with sampleCount := s.sampleCount + 1 }, none)
  else tearDown s i

/-- One step of the driving loop.  Returns the successor state and the
backoff delay slept in this iteration, if any.

The faithful subtleties: a failed `connect_and_auth` (transport connect
error or auth rejection) raises after `socket.socket(...)` created a new
transport but before the caller's `sock` variable is assigned, so the
generic handler sees `sock is None` and closes nothing; a successful
connect sets `reconnect_delay = 1` before the same iteration goes on to
sample and send; `KeyboardInterrupt` sends `QUIT` and closes inside one
`try`, so the close is skipped when the `QUIT` send raises; after
`sys.exit(0)` (modelled by `terminated`) nothing further happens. -/
def stepIter (s : LoopState) (it : Iter) : LoopState × Option Nat :=
  if s.terminated then (s, none)
  else
    match it with
    | .interrupt quitOk =>
      match s.sock with
      | some i =>
        ({ s with sock := none, quitAttempts := s.quitAttempts + 1,
                  closed := if quitOk then i :: s.closed else s.closed,
                  terminated := true }, none)
      | none => ({ s with terminated := true }, none)
    | .run e =>
      match s.sock with
      | none =>
        let i := s.nOpened
        let s1 := { s with nOpened := s.nOpened + 1 }
        match e.conn with
        | .connFail =>
          ({ s1 with reconnectDelay := min (s1.reconnectDelay * 2) 60 },
           some s1.reconnectDelay)
        | .authFail =>
          ({ s1 with reconnectDelay := min (s1.reconnectDelay * 2) 60 },
           some s1.reconnectDelay)
        | .connOk =>
          afterConn { s1 with sock := some i, authed := i :: s1.authed,
                              reconnectDelay := 1 } i e
      | some i => afterConn s i e

/-- Run the loop over a list of iterations, returning the final state. -/
def runLoop (s : LoopState) : List Iter → LoopState
  | [] => s
  | it :: its => runLoop (stepIter s it).1 its

/-- Backoff delays slept over a list of iterations, in order. -/
def runSleeps (s : LoopState) : List Iter → List Nat
  | [] => []
  | it :: its =>
    match stepIter s it with
    | (s1, some d) => d :: runSleeps s1 its
    | (s1, none) => runSleeps s1 its

/-- Reachable state after driving the loop from process start. -/
def reach (its : List Iter) : LoopState :=
  runLoop initState its

/-- Resource-hygiene property in the words of the claim (spec P5): every
transport that was opened and is not currently live has been closed exactly
once. -/
def claimedHygiene (s : LoopState) : Prop :=
  ∀ i < s.nOpened, s.sock ≠ some i → s.closed.count i = 1

instance (s : LoopState) : Decidable (claimedHygiene s) :=
  inferInstanceAs (Decidable (∀ i < s.nOpened, s.sock ≠ some i → s.closed.count i = 1))

/-- Hygiene as the code actually maintains it: among transports returned by
a successful `connect_and_auth`, the live one is not closed and every other
one is closed exactly once.  Transports abandoned by a failed connect or
auth handshake are never explicitly closed.  Stated for non-terminated
states (after `sys.exit` the remaining handle is reclaimed by the OS). -/
def codeHygiene (s : LoopState) : Prop :=
  ∀ i ∈ s.authed, (s.sock = some i ∧ i ∉ s.closed) ∨
    (s.sock ≠ some i ∧ s.closed.count i = 1)

/-- Auxiliary invariant carried through the loop: ids are allocated below
`nOpened`, `authed` and `closed` have no duplicates, closed ids are authed
ids, and the live socket is an authed, not-yet-closed id. -/
def loopInv (s : LoopState) : Prop :=
  s.authed.Nodup ∧ s.closed.Nodup ∧
    (∀ i ∈ s.authed, i < s.nOpened) ∧
    (∀ i ∈ s.closed, i ∈ s.authed) ∧
    (∀ i, s.sock = some i → i ∈ s.authed ∧ i ∉ s.closed) ∧
    (s.terminated = false → ∀ i ∈ s.authed, s.sock ≠ some i → i ∈ s.closed)

/-! ### JSON line encoding and decoding

`send_reading` serializes a flat record with `json.dumps(data) + "\n"`.
Keys are modelled as `List Char` (Python `str` as a sequence of Unicode
scalar values); numeric values as the decimal literal `json.dumps` emits
for a finite float (`repr`-style: sign, integer digits, optional fraction,
optional signed exponent).  The decoder implements JSON decoding of the
protocol's write-line grammar (a flat object of string keys and numbers,
per the spec's "no nested structures"), with `json.loads`'s strict-mode
rules: raw control characters in strings are rejected, hex escapes accept
both cases, surrogate pairs are combined.  (Lone surrogates, which CPython
would keep as unpaired code units, are not representable in a `Char` and
are rejected; the encoder never emits them.) -/

/-- Decimal literal for a finite float as `json.dumps` prints it. -/
structure JNum where
  neg : Bool
  ip : List Char
  fp : Option (List Char)
  ex : Option (Bool × List Char)
deriving DecidableEq

/-- A record: the flat field-name-to-number mapping sent on each tick. -/
def Record := List (List Char × JNum)
deriving DecidableEq

/-- Lowercase hex digit, as in CPython's `'\\u{0:04x}'.format(...)`. -/
def hexDigitChar (n : Nat) : Char :=
  if n < 10 then Char.ofNat (48 + n) else Char.ofNat (87 + n)

/-- Four lowercase hex digits of `n < 0x10000`. -/
def hex4 (n : Nat) : List Char :=
  [hexDigitChar (n / 4096 % 16), hexDigitChar (n / 256 % 16),
   hexDigitChar (n / 16 % 16), hexDigitChar (n % 16)]

/-- Escape of one character, as in `json.encoder.py_encode_basestring_ascii`
(the default `ensure_ascii=True` path): `\"` `\\` and the five short
control escapes, printable ASCII verbatim, `\uXXXX` for every other
character below `0x10000`, and a surrogate-pair escape above. -/
def escChar (c : Char) : List Char :=
  if c = '"' then ['\\', '"']
  else if c = '\\' then ['\\', '\\']
  else if c = '\n' then ['\\', 'n']
  else if c = '\r' then ['\\', 'r']
  else if c = '\t' then ['\\', 't']
  else if c = Char.ofNat 8 then ['\\', 'b']
  else if c = Char.ofNat 12 then ['\\', 'f']
  else if 32 ≤ c.toNat ∧ c.toNat ≤ 126 then [c]
  else if c.toNat < 65536 then '\\' :: 'u' :: hex4 c.toNat
  else
    ('\\' :: 'u' :: hex4 (55296 + (c.toNat - 65536) / 1024)) ++
      ('\\' :: 'u' :: hex4 (56320 + (c.toNat - 65536) % 1024))

/-- Escape of a whole string body. -/
def escape (s : List Char) : List Char :=
  s.flatMap escChar

/-- JSON string literal for a key. -/
def encStr (s : List Char) : List Char :=
  '"' :: escape s ++ ['"']

/-- Print a number literal. -/
def encNum (v : JNum) : List Char :=
  (if v.neg then ['-'] else []) ++ v.ip ++
    (match v.fp with
     | none => []
     | some f => '.' :: f) ++
    (match v.ex with
     | none => []
     | some (sn, ds) => 'e' :: (if sn then '-' else '+') :: ds)

/-- One `"key": value` item (default separator `': '`). -/
def encPair (p : List Char × JNum) : List Char :=
  encStr p.1 ++ ':' :: ' ' :: encNum p.2

/-- Items joined with the default separator `', '`. -/
def encItems : Record → List Char
  | [] => []
  | [p] => encPair p
  | p :: q :: r => encPair p ++ ',' :: ' ' :: encItems (q :: r)

/-- Model of `json.dumps(data)` for a flat record. -/
def dumps (r : Record) : List Char :=
  '{' :: encItems r ++ ['}']

/-- The line handed to `sock.send`: `json.dumps(data) + "\n"`. -/
def encodeLine (r : Record) : List Char :=
  dumps r ++ ['\n']

/-- Bytes actually transmitted when `send_reading` hands the encoded line
to a single `sock.send` call and the transport accepts `accepted` bytes:
the accepted prefix.  The scripts ignore `send`'s return value and never
re-offer the remainder. -/
def sendReadingTransmitted (r : Record) (accepted : Nat) : List Char :=
  (encodeLine r).take accepted

/-- JSON whitespace accepted between tokens by the decoder: space, tab,
newline, carriage return (code points 32, 9, 10, 13). -/
def jsonWs (c : Char) : Bool :=
  c.toNat == 32 || c.toNat == 9 || c.toNat == 10 || c.toNat == 13

/-- Skip JSON whitespace. -/
def skipWs (cs : List Char) : List Char :=
  cs.dropWhile jsonWs

/-- Value of one hex digit, either case. -/
def hexVal (c : Char) : Option Nat :=
  if '0' ≤ c ∧ c ≤ '9' then some (c.toNat - 48)
  else if 'a' ≤ c ∧ c ≤ 'f' then some (c.toNat - 87)
  else if 'A' ≤ c ∧ c ≤ 'F' then some (c.toNat - 55)
  else none

/-- Value of a four-hex-digit escape payload. -/
def hex4Val (a b c d : Char) : Option Nat :=
  match hexVal a, hexVal b, hexVal c, hexVal d with
  | some va, some vb, some vc, some vd => some (((va * 16 + vb) * 16 + vc) * 16 + vd)
  | _, _, _, _ => none

/-- Prepend a decoded character to a string-parse result. -/
def cons1 (c : Char) (r : Option (List Char × List Char)) :
    Option (List Char × List Char) :=
  r.map (fun p => (c :: p.1, p.2))

/-- Decode one short escape character (`\"` `\\` `\/` `\b` `\f` `\n` `\r`
`\t`), if `e` is one. -/
def shortEsc (e : Char) : Option Char :=
  if e = '"' then some '"'
  else if e = '\\' then some '\\'
  else if e = '/' then some '/'
  else if e = 'b' then some (Char.ofNat 8)
  else if e = 'f' then some (Char.ofNat 12)
  else if e = 'n' then some '\n'
  else if e = 'r' then some '\r'
  else if e = 't' then some '\t'
  else none

/-- Decode the second half of a surrogate-pair escape: expects
`\uXXXX` with a low surrogate value, and combines it with the high
surrogate value `v` already read. -/
def decodeLowSur (v : Nat) : List Char → Option (Char × List Char)
  | b1 :: u1 :: a2 :: b2 :: c2 :: d2 :: rest =>
    if b1 = '\\' ∧ u1 = 'u' then
      match hex4Val a2 b2 c2 d2 with
      | some w =>
        if 56320 ≤ w ∧ w ≤ 57343 then
          some (Char.ofNat (65536 + (v - 55296) * 1024 + (w - 56320)), rest)
        else none
      | none => none
    else none
  | _ => none

/-- Decode the payload of a `\u` escape (the input starts at the four hex
digits): a non-surrogate value is a character on its own, a high surrogate
must be followed by a low-surrogate escape (combined into one character),
and a lone low surrogate is rejected (it has no `Char` counterpart;
`json.dumps` output never contains one, though CPython itself would keep
an unpaired code unit). -/
def decodeU : List Char → Option (Char × List Char)
  | a :: b :: c :: d :: rest =>
    match hex4Val a b c d with
    | some v =>
      if 55296 ≤ v ∧ v ≤ 56319 then decodeLowSur v rest
      else if 56320 ≤ v ∧ v ≤ 57343 then none
      else some (Char.ofNat v, rest)
    | none => none
  | _ => none

/-- Parse a JSON string body after the opening quote, returning the decoded
content and the input after the closing quote, with fuel bounding the
number of decoded characters.  Follows `json.loads` in strict mode: raw
control characters are rejected, the short escapes and `\uXXXX` are
decoded, and a high-surrogate escape followed by a low-surrogate escape is
combined into one character. -/
def parseStrBodyF : Nat → List Char → Option (List Char × List Char)
  | 0, _ => none
  | fuel + 1, cs =>
    match cs with
    | [] => none
    | c :: rest =>
      if c = '"' then some ([], rest)
      else if c = '\\' then
        match rest with
        | [] => none
        | e :: rest2 =>
          if e = 'u' then
            match decodeU rest2 with
            | some (ch, rest3) => cons1 ch (parseStrBodyF fuel rest3)
            | none => none
          else
            match shortEsc e with
            | some c2 => cons1 c2 (parseStrBodyF fuel rest2)
            | none => none
      else if c.toNat < 32 then none
      else cons1 c (parseStrBodyF fuel rest)

/-- Parse a JSON string body.  Every decoded character consumes at least
one input character, so the input length is always enough fuel. -/
def parseStrBody (cs : List Char) : Option (List Char × List Char) :=
  parseStrBodyF (cs.length + 1) cs

/-- Digit run of an exponent, with the sign already consumed: at least one
digit is required. -/
def parseExpDigits (neg : Bool) (ip : List Char) (fp : Option (List Char)) (esn : Bool)
    (t : List Char) : Option (JNum × List Char) :=
  if (t.takeWhile isDigitC).isEmpty then none
  else some (⟨neg, ip, fp, some (esn, t.takeWhile isDigitC)⟩, t.dropWhile isDigitC)

/-- Exponent tail of a number, after `e`/`E`: optional sign, then at least
one digit. -/
def parseExpTail (neg : Bool) (ip : List Char) (fp : Option (List Char)) :
    List Char → Option (JNum × List Char)
  | [] => parseExpDigits neg ip fp false []
  | c :: u =>
    if c = '+' then parseExpDigits neg ip fp false u
    else if c = '-' then parseExpDigits neg ip fp true u
    else parseExpDigits neg ip fp false (c :: u)

/-- Optional exponent part. -/
def parseNumExp (neg : Bool) (ip : List Char) (fp : Option (List Char))
    (cs : List Char) : Option (JNum × List Char) :=
  match cs with
  | [] => some (⟨neg, ip, fp, none⟩, [])
  | c :: t =>
    if c = 'e' ∨ c = 'E' then parseExpTail neg ip fp t
    else some (⟨neg, ip, fp, none⟩, c :: t)

/-- Optional fraction part, then optional exponent. -/
def parseNumAfterInt (neg : Bool) (ip : List Char) (cs : List Char) :
    Option (JNum × List Char) :=
  match cs with
  | [] => parseNumExp neg ip none []
  | c :: t =>
    if c = '.' then
      let f := t.takeWhile isDigitC
      if f.isEmpty then none
      else parseNumExp neg ip (some f) (t.dropWhile isDigitC)
    else parseNumExp neg ip none (c :: t)

/-- Integer part and the rest of a number, with the sign already consumed. -/
def parseNumCore (neg : Bool) : List Char → Option (JNum × List Char)
  | [] => none
  | c :: t =>
    if c = '0' then parseNumAfterInt neg ['0'] t
    else if isDigitC c then
      parseNumAfterInt neg (c :: t.takeWhile isDigitC) (t.dropWhile isDigitC)
    else none

/-- Parse a JSON number per the grammar `json.loads` uses
(`-? (0 | [1-9][0-9]*) (\. [0-9]+)? ([eE] [-+]? [0-9]+)?`). -/
def parseNum (cs : List Char) : Option (JNum × List Char) :=
  match cs with
  | [] => none
  | c :: t => if c = '-' then parseNumCore true t else parseNumCore false (c :: t)

/-- Parse one `"key": number` member. -/
def parsePair (cs : List Char) : Option ((List Char × JNum) × List Char) :=
  match skipWs cs with
  | [] => none
  | c :: t =>
    if c = '"' then
      match parseStrBody t with
      | none => none
      | some (k, r1) =>
        match skipWs r1 with
        | [] => none
        | c2 :: r2 =>
          if c2 = ':' then
            match parseNum (skipWs r2) with
            | none => none
            | some (v, r3) => some ((k, v), r3)
          else none
    else none

/-- Parse the members of a nonempty object, consuming the closing brace.
The fuel bounds the number of members; `loads` passes more fuel than any
input can need. -/
def parseMembers : Nat → List Char → Option (Record × List Char)
  | 0, _ => none
  | fuel + 1, cs =>
    match parsePair cs with
    | none => none
    | some (p, r) =>
      match skipWs r with
      | [] => none
      | c :: r2 =>
        if c = ',' then (parseMembers fuel r2).map (fun q => (p :: q.1, q.2))
        else if c = '}' then some ([p], r2)
        else none

/-- Parse a JSON object of string keys and number values. -/
def parseObj (fuel : Nat) (cs : List Char) : Option (Record × List Char) :=
  match skipWs cs with
  | [] => none
  | c :: t =>
    if c = '{' then
      match skipWs t with
      | [] => none
      | c2 :: r =>
        if c2 = '}' then some ([], r) else parseMembers fuel t
    else none

/-- Model of `json.loads` on a write-line payload: parse one object and
require only whitespace after it. -/
def loads (cs : List Char) : Option Record :=
  match parseObj (cs.length + 1) cs with
  | some (r, rest) => if (skipWs rest).isEmpty then some r else none
  | none => none

/-- Digit-run wellformedness: nonempty, all decimal digits. -/
def wfDigits (ds : List Char) : Bool :=
  !ds.isEmpty && ds.all isDigitC

/-- Wellformed number literal: nonempty digit runs everywhere and no
leading zero in the integer part (as in every literal `repr` of a finite
float, and as JSON's number grammar requires). -/
def wfNum (v : JNum) : Bool :=
  wfDigits v.ip && (v.ip == ['0'] || v.ip.head? != some '0') &&
    (match v.fp with
     | none => true
     | some f => wfDigits f) &&
    (match v.ex with
     | none => true
     | some (_, ds) => wfDigits ds)

/-- Wellformed record: every value is a wellformed number literal. -/
def wfRecord (r : Record) : Bool :=
  r.all (fun p => wfNum p.2)

/-! ## Lemmas about the Python string primitives -/

theorem isDigitC_iff {c : Char} : isDigitC c = true ↔ 48 ≤ c.toNat ∧ c.toNat ≤ 57 := by
  simp [isDigitC]

theorem pyWs_eq_false_of_isDigitC {c : Char} (h : isDigitC c = true) : pyWs c = false := by
  rw [isDigitC_iff] at h
  simp [pyWs]
  omega

theorem startsOK_iff {cs : List Char} : startsOK cs = true ↔ ∃ t, cs = 'O' :: 'K' :: t := by
  match cs with
  | [] => simp [startsOK]
  | [c] => simp [startsOK]
  | c1 :: c2 :: t =>
    simp only [startsOK, Bool.and_eq_true, beq_iff_eq]
    constructor
    · rintro ⟨rfl, rfl⟩; exact ⟨t, rfl⟩
    · rintro ⟨t', ht⟩
      obtain ⟨rfl, rfl, rfl⟩ : c1 = 'O' ∧ c2 = 'K' ∧ t = t' := by
        injection ht with h1 h2; injection h2 with h2 h3; exact ⟨h1, h2, h3⟩
      exact ⟨rfl, rfl⟩

theorem pyStrip_OK_cons (r : List Char) :
    ∃ t, pyStrip ('O' :: 'K' :: r) = 'O' :: 'K' :: t := by
  unfold pyStrip
  have h1 : List.dropWhile pyWs ('O' :: 'K' :: r) = 'O' :: 'K' :: r := by
    simp [List.dropWhile, pyWs]
  rw [h1]
  have h2 : ('O' :: 'K' :: r).reverse = r.reverse ++ ['K', 'O'] := by simp
  rw [h2, List.dropWhile_append]
  by_cases h : (r.reverse.dropWhile pyWs).isEmpty
  · simp only [h, if_true]
    exact ⟨[], by simp [List.dropWhile, pyWs]⟩
  · simp only [h, if_false]
    exact ⟨(r.reverse.dropWhile pyWs).reverse, by simp⟩

theorem pySplit_ws_cons {c : Char} (h : pyWs c = true) (t : List Char) :
    pySplit (c :: t) = pySplit t := by
  unfold pySplit
  rw [pySplitAux, if_pos h]
  simp

theorem pySplit_dropWhile (cs : List Char) :
    pySplit (cs.dropWhile pyWs) = pySplit cs := by
  induction cs with
  | nil => simp
  | cons c t ih =>
    by_cases h : pyWs c
    · rw [List.dropWhile_cons, if_pos h, pySplit_ws_cons h, ih]
    · rw [List.dropWhile_cons, if_neg (by simp [h])]

theorem pySplitAux_nonws {ds : List Char} (h : ∀ d ∈ ds, pyWs d = false) :
    ∀ acc : List Char, acc ≠ [] ∨ ds ≠ [] → pySplitAux ds acc = [acc.reverse ++ ds] := by
  induction ds with
  | nil =>
    intro acc hne
    rw [pySplitAux]
    rcases hne with ha | hd
    · rw [if_neg (by simpa using ha)]
      simp
    · exact absurd rfl hd
  | cons d t ih =>
    intro acc _
    rw [pySplitAux, if_neg (by simp [h d (by simp)])]
    rw [ih (fun x hx => h x (by simp [hx])) (d :: acc) (Or.inl (by simp))]
    simp

theorem pySplit_word {ds : List Char} (hne : ds ≠ []) (h : ∀ d ∈ ds, pyWs d = false) :
    pySplit ds = [ds] := by
  unfold pySplit
  rw [pySplitAux_nonws h [] (Or.inr hne)]
  simp

theorem pyDigitsUS_digits {ds : List Char} (h : ∀ d ∈ ds, isDigitC d = true) (acc : Nat) :
    pyDigitsUS ds acc = some (ds.foldl (fun a c => 10 * a + (c.toNat - 48)) acc) := by
  induction ds generalizing acc with
  | nil => rfl
  | cons d t ih =>
    have hd := h d (by simp)
    have hne : d ≠ '_' := by
      intro e
      rw [e, isDigitC_iff] at hd
      revert hd; decide
    rw [pyDigitsUS.eq_def]
    simp only [if_neg hne, if_pos hd, List.foldl_cons]
    exact ih (fun x hx => h x (List.mem_cons_of_mem d hx)) _

theorem pyInt_digits {ds : List Char} (hne : ds ≠ []) (h : ∀ d ∈ ds, isDigitC d = true) :
    pyInt ds = some (Int.ofNat (natOfDigits ds)) := by
  match ds with
  | d :: t =>
    have hd := h d (by simp)
    have h1 : d ≠ '+' := by
      intro e; rw [e, isDigitC_iff] at hd; revert hd; decide
    have h2 : d ≠ '-' := by
      intro e; rw [e, isDigitC_iff] at hd; revert hd; decide
    have ht : ∀ x ∈ t, isDigitC x = true := fun x hx => h x (List.mem_cons_of_mem d hx)
    rw [pyInt.eq_def]
    simp only [if_neg h1, if_neg h2]
    rw [pyIntVal.eq_def]
    simp only [if_pos hd, pyDigitsUS_digits ht, Option.map_some]
    simp [natOfDigits]

/-! ## C1: write acknowledgement parsing -/

/-- C1 counterexample: the claim says `write` returns an integer timestamp
iff the acknowledgement matches `OK <integer_timestamp>`, and that any
other content is a write failure.  The code only checks
`response.startswith("OK")` and then takes `int(parts[1])`, so the line
`OKx 123` (which does not match `OK <ts>`) returns the timestamp `123`,
and the line `OK` alone returns `None` without failing. -/
theorem c1_counterexample :
    sendReadingAck ("OKx 123\n".data) = WriteAck.ack (some 123) ∧
      specOkTimestamp ("OKx 123\n".data) = none ∧
      sendReadingAck ("OK\n".data) = WriteAck.ack none ∧
      sendReadingAck ("OK\n".data) ≠ WriteAck.failedResp := by
  decide

/-- C1 (amended): every acknowledgement line matching the spec's
`OK <integer_timestamp>` shape makes `send_reading` return exactly that
timestamp; and an acknowledgement is a write failure (raises) iff the
stripped line does not start with `OK`.  (Lines starting with `OK` that do
not match the spec shape are not failures: they return `int(parts[1])`
when a second token parses as a Python integer, `None` when there is no
second token, and raise `ValueError` otherwise.) -/
theorem c1_write_ack_characterization :
    (∀ line n, specOkTimestamp line = some n →
        sendReadingAck line = WriteAck.ack (some (Int.ofNat n))) ∧
      (∀ line, sendReadingAck line = WriteAck.failedResp ↔
        startsOK (pyStrip line) = false) := by
  constructor
  · intro line n h
    unfold specOkTimestamp at h
    split at h
    case h_1 c1 c2 c3 rest heq =>
      split at h
      case isTrue hc =>
        obtain ⟨rfl, rfl, hw⟩ := hc
        split at h
        case isTrue hcond =>
          rw [Bool.and_eq_true] at hcond
          have hne : (c3 :: rest).dropWhile pyWs ≠ [] := by
            intro e
            rw [e] at hcond
            simp at hcond
          have hdig : ∀ d ∈ (c3 :: rest).dropWhile pyWs, isDigitC d = true := by
            intro d hd
            exact List.all_eq_true.mp hcond.2 d hd
          have hnws : ∀ d ∈ (c3 :: rest).dropWhile pyWs, pyWs d = false :=
            fun d hd => pyWs_eq_false_of_isDigitC (hdig d hd)
          have htail : pySplit rest = [(c3 :: rest).dropWhile pyWs] := by
            rw [← pySplit_ws_cons hw rest, ← pySplit_dropWhile (c3 :: rest)]
            exact pySplit_word hne hnws
          have hsplit : pySplit ('O' :: 'K' :: c3 :: rest) =
              [['O', 'K'], (c3 :: rest).dropWhile pyWs] := by
            unfold pySplit
            rw [pySplitAux, if_neg (by decide)]
            rw [pySplitAux, if_neg (by decide)]
            rw [pySplitAux, if_pos hw, if_neg (by decide)]
            show ['O', 'K'] :: pySplit rest = _
            rw [htail]
          unfold sendReadingAck
          rw [heq]
          rw [if_pos (by simp [startsOK])]
          rw [hsplit]
          obtain rfl : natOfDigits (List.dropWhile pyWs (c3 :: rest)) = n := by
            injection h
          simp only [pyInt_digits hne hdig]
        case isFalse => exact absurd h (by simp)
      case isFalse => exact absurd h (by simp)
    case h_2 => exact absurd h (by simp)
  · intro line
    unfold sendReadingAck
    by_cases hs : startsOK (pyStrip line) = true
    · simp only [hs, if_true]
      constructor
      · intro h
        exfalso
        revert h
        split
        · intro h; cases h
        · intro h; cases h
        · split
          · intro h; cases h
          · intro h; cases h
      · intro h; simp at h
    · simp only [Bool.not_eq_true] at hs
      simp [hs]

/-- C1 witness: the theorem applied to the spec's own scenario C
acknowledgement `OK 1700000000\n`. -/
theorem c1_witness :
    specOkTimestamp ("OK 1700000000\n".data) = some 1700000000 ∧
      sendReadingAck ("OK 1700000000\n".data) =
        WriteAck.ack (some (Int.ofNat 1700000000)) :=
  ⟨by decide, c1_write_ack_characterization.1 _ _ (by decide)⟩

/-! ## C2: authentication response classification -/

/-- C2 counterexample: the claim says a line where the success token is
immediately followed by other characters is an authentication failure; the
code's `response.startswith("OK")` accepts `OKgarbage\n`. -/
theorem c2_counterexample :
    connectAuthOK ("OKgarbage\n".data) = true ∧
      specAuthOK ("OKgarbage\n".data) = false := by
  decide

/-- C2 (amended): every response the spec classifies as successful (the
token followed by whitespace, or a bare `OK` line) is accepted by
`connect_and_auth`; but the code accepts exactly the lines whose stripped
text begins with the two characters `OK`, regardless of what follows. -/
theorem c2_auth_classification :
    (∀ line, specAuthOK line = true → connectAuthOK line = true) ∧
      (∀ line, connectAuthOK line = true ↔ ∃ t, pyStrip line = 'O' :: 'K' :: t) := by
  constructor
  · intro line h
    obtain ⟨r, rfl⟩ : ∃ r, line = 'O' :: 'K' :: r := by
      match line with
      | [] => simp [specAuthOK] at h
      | [c] => simp [specAuthOK] at h
      | [c1, c2] =>
        simp only [specAuthOK, Bool.and_eq_true, beq_iff_eq] at h
        exact ⟨[], by rw [h.1, h.2]⟩
      | c1 :: c2 :: c3 :: t =>
        simp only [specAuthOK, Bool.and_eq_true, beq_iff_eq] at h
        exact ⟨c3 :: t, by rw [h.1.1, h.1.2]⟩
    unfold connectAuthOK
    obtain ⟨t, ht⟩ := pyStrip_OK_cons r
    rw [ht]
    simp [startsOK]
  · intro line
    unfold connectAuthOK
    exact startsOK_iff

/-- C2 witness: the theorem applied to the concrete responses `OK\n` and
`OK store ready\n`. -/
theorem c2_witness :
    specAuthOK ("OK\n".data) = true ∧ connectAuthOK ("OK\n".data) = true ∧
      (connectAuthOK ("OK store ready\n".data) = true ↔
        ∃ t, pyStrip ("OK store ready\n".data) = 'O' :: 'K' :: t) :=
  ⟨by decide, c2_auth_classification.1 _ (by decide), c2_auth_classification.2 _⟩

/-! ## Lemmas about the driving loop -/

theorem stepIter_terminated {s : LoopState} (h : s.terminated = true) (it : Iter) :
    stepIter s it = (s, none) := by
  unfold stepIter
  rw [if_pos h]

theorem stepIter_connAbort {s : LoopState} {e : Env} (hterm : s.terminated = false)
    (hsock : s.sock = none) (hconn : e.conn ≠ ConnRes.connOk) :
    stepIter s (.run e) =
      ({ s with nOpened := s.nOpened + 1,
                reconnectDelay := min (s.reconnectDelay * 2) 60 },
        some s.reconnectDelay) := by
  obtain ⟨ec, es, ew⟩ := e
  cases ec
  · unfold stepIter
    rw [if_neg (by simp [hterm]), hsock]
  · unfold stepIter
    rw [if_neg (by simp [hterm]), hsock]
  · exact absurd rfl hconn

theorem stepIter_connOk {s : LoopState} {e : Env} (hterm : s.terminated = false)
    (hsock : s.sock = none) (hconn : e.conn = ConnRes.connOk) :
    stepIter s (.run e) =
      afterConn { s with nOpened := s.nOpened + 1, sock := some s.nOpened,
                         authed := s.nOpened :: s.authed, reconnectDelay := 1 }
        s.nOpened e := by
  obtain ⟨ec, es, ew⟩ := e
  cases ec
  · exact absurd hconn (by simp)
  · exact absurd hconn (by simp)
  · unfold stepIter
    rw [if_neg (by simp [hterm]), hsock]

theorem stepIter_live {s : LoopState} {i : Nat} {e : Env} (hterm : s.terminated = false)
    (hsock : s.sock = some i) :
    stepIter s (.run e) = afterConn s i e := by
  unfold stepIter
  rw [if_neg (by simp [hterm]), hsock]

theorem afterConn_ok {s : LoopState} {i : Nat} {e : Env} (hs : e.sampleOk = true)
    (hw : e.write = WRes.wOk) :
    afterConn s i e = ({ s with sampleCount := s.sampleCount + 1 }, none) := by
  unfold afterConn
  rw [if_pos hs, hw]

theorem afterConn_fail {s : LoopState} {i : Nat} {e : Env}
    (h : e.sampleOk = false ∨ e.write = WRes.wFail) :
    afterConn s i e = tearDown s i := by
  unfold afterConn
  rcases h with h | h
  · rw [if_neg (by simp [h])]
  · by_cases hs : e.sampleOk
    · rw [if_pos hs, h]
    · rw [if_neg hs]

theorem runLoop_cons (s : LoopState) (it : Iter) (its : List Iter) :
    runLoop s (it :: its) = runLoop (stepIter s it).1 its := rfl

theorem runLoop_append (s : LoopState) (l1 l2 : List Iter) :
    runLoop s (l1 ++ l2) = runLoop (runLoop s l1) l2 := by
  induction l1 generalizing s with
  | nil => rfl
  | cons it t ih => rw [List.cons_append, runLoop_cons, runLoop_cons, ih]

theorem runSleeps_cons (s : LoopState) (it : Iter) (its : List Iter) :
    runSleeps s (it :: its) =
      match stepIter s it with
      | (s1, some d) => d :: runSleeps s1 its
      | (s1, none) => runSleeps s1 its := rfl

theorem runSleeps_cons_some {s s1 : LoopState} {d : Nat} {it : Iter}
    (h : stepIter s it = (s1, some d)) (its : List Iter) :
    runSleeps s (it :: its) = d :: runSleeps s1 its := by
  rw [runSleeps_cons, h]

theorem runSleeps_cons_none {s s1 : LoopState} {it : Iter}
    (h : stepIter s it = (s1, none)) (its : List Iter) :
    runSleeps s (it :: its) = runSleeps s1 its := by
  rw [runSleeps_cons, h]

theorem runSleeps_append (s : LoopState) (l1 l2 : List Iter) :
    runSleeps s (l1 ++ l2) = runSleeps s l1 ++ runSleeps (runLoop s l1) l2 := by
  induction l1 generalizing s with
  | nil => rfl
  | cons it t ih =>
    rw [List.cons_append, runSleeps_cons, runSleeps_cons, runLoop_cons]
    rcases h : stepIter s it with ⟨s1, d⟩
    cases d
    · simpa using ih s1
    · simpa using ih s1

theorem min_double_cap (x : Nat) : min (min x 60 * 2) 60 = min (x * 2) 60 := by
  omega

theorem backoff_run {es : List Env} (hfail : ∀ e ∈ es, e.conn ≠ ConnRes.connOk) :
    ∀ (s : LoopState) (j : Nat), s.terminated = false → s.sock = none →
      s.reconnectDelay = min (2 ^ j) 60 →
      runSleeps s (es.map Iter.run) =
        (List.range es.length).map (fun k => min (2 ^ (j + k)) 60) := by
  induction es with
  | nil => intro s j _ _ _; simp [runSleeps]
  | cons e t ih =>
    intro s j hterm hsock hdelay
    have ht : ∀ x ∈ t, x.conn ≠ ConnRes.connOk := fun x hx => hfail x (by simp [hx])
    set s1 : LoopState :=
      { s with nOpened := s.nOpened + 1,
               reconnectDelay := min (s.reconnectDelay * 2) 60 } with hs1
    have hstep : stepIter s (.run e) = (s1, some s.reconnectDelay) :=
      stepIter_connAbort hterm hsock (hfail e (by simp))
    rw [List.map_cons, runSleeps_cons_some hstep]
    have hd1 : s1.reconnectDelay = min (2 ^ (j + 1)) 60 := by
      rw [hs1]
      show min (s.reconnectDelay * 2) 60 = min (2 ^ (j + 1)) 60
      rw [hdelay, min_double_cap, pow_succ]
    have hrec := ih ht s1 (j + 1) hterm hsock hd1
    rw [hrec, hdelay]
    rw [List.length_cons, List.range_succ_eq_map, List.map_cons, List.map_map]
    have hhead : min (2 ^ (j + 0)) 60 = min (2 ^ j) 60 := by rw [Nat.add_zero]
    rw [hhead]
    have htail : (List.range t.length).map ((fun k => min (2 ^ (j + k)) 60) ∘ Nat.succ) =
        (List.range t.length).map (fun k => min (2 ^ (j + 1 + k)) 60) := by
      rw [List.map_inj_left]
      intro k _
      simp only [Function.comp_apply]
      have : j + Nat.succ k = j + 1 + k := by omega
      rw [this]
    rw [htail]

/-! ## C4: exponential backoff with cap -/

/-- C4: over any run of consecutive failed reconnect attempts (transport
connect failures or auth rejections, no intervening success) starting from
the initial delay of 1 second, the delays slept before successive attempts
are `min(1 * 2^(k-1), 60)` for `k = 1, 2, ...` (0-indexed here as
`min (1 * 2^k) 60`). -/
theorem c4_backoff_sequence (s : LoopState) (es : List Env)
    (hterm : s.terminated = false) (hsock : s.sock = none)
    (hdelay : s.reconnectDelay = 1)
    (hfail : ∀ e ∈ es, e.conn ≠ ConnRes.connOk) :
    runSleeps s (es.map Iter.run) =
      (List.range es.length).map (fun k => min (1 * 2 ^ k) 60) := by
  have h := backoff_run hfail s 0 hterm hsock (by simpa using hdelay)
  simpa using h

/-- C4 witness: eight straight connect failures from process start sleep
1, 2, 4, 8, 16, 32, 60, 60 seconds. -/
theorem c4_witness :
    runSleeps initState
        ((List.replicate 8 (⟨ConnRes.connFail, true, WRes.wOk⟩ : Env)).map Iter.run) =
      (List.range 8).map (fun k => min (1 * 2 ^ k) 60) ∧
      (List.range 8).map (fun k => min (1 * 2 ^ k) 60) = [1, 2, 4, 8, 16, 32, 60, 60] :=
  ⟨c4_backoff_sequence initState _ rfl rfl rfl (by decide), by decide⟩

/-! ## C5: backoff reset on successful connection -/

theorem success_run {L : List Env} (hL : ∀ e ∈ L, e.sampleOk = true ∧ e.write = WRes.wOk) :
    ∀ (s : LoopState) (i : Nat), s.terminated = false → s.sock = some i →
      runLoop s (L.map Iter.run) = { s with sampleCount := s.sampleCount + L.length } ∧
        runSleeps s (L.map Iter.run) = [] := by
  induction L with
  | nil => intro s i hterm hsock; constructor <;> simp [runLoop, runSleeps]
  | cons e t ih =>
    intro s i hterm hsock
    have hstep : stepIter s (.run e) = ({ s with sampleCount := s.sampleCount + 1 }, none) := by
      rw [stepIter_live hterm hsock, afterConn_ok (hL e (by simp)).1 (hL e (by simp)).2]
    have ht : ∀ x ∈ t, x.sampleOk = true ∧ x.write = WRes.wOk :=
      fun x hx => hL x (by simp [hx])
    have hrec := ih ht { s with sampleCount := s.sampleCount + 1 } i hterm hsock
    constructor
    · rw [List.map_cons, runLoop_cons, hstep, hrec.1]
      simp only [List.length_cons]
      congr 1
      omega
    · rw [List.map_cons, runSleeps_cons, hstep]
      exact hrec.2

/-- C5: after a successful authenticated connection (from any accumulated
backoff delay `d`), the next failure sleeps exactly the initial delay of
1 second: a connect-success iteration followed by any number of successful
send iterations and then one failing iteration sleeps `[1]` in total. -/
theorem c5_backoff_reset (s : LoopState) (e0 : Env) (L : List Env) (f : Env)
    (hterm : s.terminated = false) (hsock : s.sock = none)
    (hc : e0.conn = ConnRes.connOk) (h0 : e0.sampleOk = true ∧ e0.write = WRes.wOk)
    (hL : ∀ e ∈ L, e.sampleOk = true ∧ e.write = WRes.wOk)
    (hf : f.sampleOk = false ∨ f.write = WRes.wFail) :
    runSleeps s ((e0 :: (L ++ [f])).map Iter.run) = [1] := by
  have hstep0 : stepIter s (.run e0) =
      ({ s with nOpened := s.nOpened + 1, sock := some s.nOpened,
                authed := s.nOpened :: s.authed, reconnectDelay := 1,
                sampleCount := s.sampleCount + 1 }, none) := by
    rw [stepIter_connOk hterm hsock hc, afterConn_ok h0.1 h0.2]
  rw [List.map_cons, runSleeps_cons_none hstep0]
  rw [List.map_append, runSleeps_append]
  set s1 : LoopState :=
    { s with nOpened := s.nOpened + 1, sock := some s.nOpened,
             authed := s.nOpened :: s.authed, reconnectDelay := 1,
             sampleCount := s.sampleCount + 1 } with hs1
  have hrun := success_run hL s1 s.nOpened hterm rfl
  rw [hrun.1, hrun.2]
  set s2 : LoopState := { s1 with sampleCount := s1.sampleCount + L.length } with hs2
  have hsock2 : s2.sock = some s.nOpened := rfl
  have hterm2 : s2.terminated = false := hterm
  have hfstep : stepIter s2 (.run f) = ((tearDown s2 s.nOpened).1, some 1) := by
    rw [stepIter_live hterm2 hsock2, afterConn_fail hf]
    rfl
  show [] ++ runSleeps s2 [Iter.run f] = [1]
  rw [List.nil_append, runSleeps_cons_some hfstep]
  rfl

/-- C5 witness: accumulated delay 32, then success, then a write failure:
the failure sleeps exactly 1 second. -/
theorem c5_witness :
    runSleeps { initState with reconnectDelay := 32 }
        (([⟨ConnRes.connOk, true, WRes.wOk⟩,
           ⟨ConnRes.connOk, true, WRes.wOk⟩,
           ⟨ConnRes.connOk, true, WRes.wFail⟩] : List Env).map Iter.run) = [1] :=
  c5_backoff_reset { initState with reconnectDelay := 32 }
    ⟨ConnRes.connOk, true, WRes.wOk⟩ [⟨ConnRes.connOk, true, WRes.wOk⟩]
    ⟨ConnRes.connOk, true, WRes.wFail⟩ rfl rfl rfl ⟨rfl, rfl⟩ (by decide) (Or.inr rfl)

/-! ## C9: sampler failure is not isolated from the client -/

/-- C9 counterexample: the claim says a failed acquisition leaves the
client's connection state and backoff untouched.  In the code the sampler
runs inside the same `try` as the client, so after a successful connect
(live transport 0, delay 1) a sampler failure closes the socket, sleeps
the 1-second backoff and doubles the delay. -/
theorem c9_counterexample :
    stepIter (reach [Iter.run ⟨ConnRes.connOk, true, WRes.wOk⟩])
        (Iter.run ⟨ConnRes.connOk, false, WRes.wOk⟩) ≠
      (reach [Iter.run ⟨ConnRes.connOk, true, WRes.wOk⟩], none) ∧
      (stepIter (reach [Iter.run ⟨ConnRes.connOk, true, WRes.wOk⟩])
        (Iter.run ⟨ConnRes.connOk, false, WRes.wOk⟩)).1.sock = none ∧
      (stepIter (reach [Iter.run ⟨ConnRes.connOk, true, WRes.wOk⟩])
        (Iter.run ⟨ConnRes.connOk, false, WRes.wOk⟩)).1.closed = [0] ∧
      (stepIter (reach [Iter.run ⟨ConnRes.connOk, true, WRes.wOk⟩])
        (Iter.run ⟨ConnRes.connOk, false, WRes.wOk⟩)).1.reconnectDelay = 2 ∧
      (stepIter (reach [Iter.run ⟨ConnRes.connOk, true, WRes.wOk⟩])
        (Iter.run ⟨ConnRes.connOk, false, WRes.wOk⟩)).2 = some 1 := by
  refine ⟨?_, by decide, by decide, by decide, by decide⟩
  intro h
  have := congrArg (fun p => p.1.sock) h
  revert this
  decide

/-- C9 (amended): a sampler-side acquisition failure is handled exactly
like a write failure on the live connection: the socket is closed, the
backoff delay is slept and doubled, and the next tick reconnects. -/
theorem c9_sample_failure_teardown (s : LoopState) (i : Nat) (e1 e2 : Env)
    (hterm : s.terminated = false) (hsock : s.sock = some i)
    (h1 : e1.sampleOk = false) (_h2 : e2.sampleOk = true) (hw : e2.write = WRes.wFail) :
    stepIter s (.run e1) = stepIter s (.run e2) ∧
      stepIter s (.run e1) = tearDown s i := by
  have ha : stepIter s (.run e1) = tearDown s i := by
    rw [stepIter_live hterm hsock, afterConn_fail (Or.inl h1)]
  have hb : stepIter s (.run e2) = tearDown s i := by
    rw [stepIter_live hterm hsock, afterConn_fail (Or.inr hw)]
  exact ⟨ha.trans hb.symm, ha⟩

/-- C9 witness: the amended theorem at a concrete live state. -/
theorem c9_witness :
    stepIter (reach [Iter.run ⟨ConnRes.connOk, true, WRes.wOk⟩])
        (Iter.run ⟨ConnRes.connOk, false, WRes.wOk⟩) =
      stepIter (reach [Iter.run ⟨ConnRes.connOk, true, WRes.wOk⟩])
        (Iter.run ⟨ConnRes.connOk, true, WRes.wFail⟩) :=
  (c9_sample_failure_teardown (reach [Iter.run ⟨ConnRes.connOk, true, WRes.wOk⟩]) 0
    ⟨ConnRes.connOk, false, WRes.wOk⟩ ⟨ConnRes.connOk, true, WRes.wFail⟩
    rfl rfl rfl rfl rfl).1

/-! ## C6: shutdown behaviour -/

/-- C6 counterexample: the claim says the transport is closed even when
sending `QUIT` fails.  In the code `sock.send(b"QUIT\n")` and
`sock.close()` share one `try`, so when the send raises, `close` is never
called: after shutdown with a failing QUIT send, the opened, authenticated
transport 0 is not in the closed ledger. -/
theorem c6_counterexample :
    (stepIter (reach [Iter.run ⟨ConnRes.connOk, true, WRes.wOk⟩])
        (Iter.interrupt false)).1.terminated = true ∧
      (stepIter (reach [Iter.run ⟨ConnRes.connOk, true, WRes.wOk⟩])
        (Iter.interrupt false)).1.quitAttempts = 1 ∧
      (reach [Iter.run ⟨ConnRes.connOk, true, WRes.wOk⟩]).sock = some 0 ∧
      (stepIter (reach [Iter.run ⟨ConnRes.connOk, true, WRes.wOk⟩])
        (Iter.interrupt false)).1.closed = [] := by
  decide

/-- C6 (amended): on an interrupt with a live connection the client
attempts the `QUIT` send once and terminates; the transport is closed iff
the `QUIT` send succeeds (send and close share one `try`, so a failing
send skips the close); no backoff is slept; and any further iteration
(including a second shutdown) is a no-op. -/
theorem c6_shutdown (s : LoopState) (i : Nat) (q : Bool)
    (hterm : s.terminated = false) (hsock : s.sock = some i) :
    (stepIter s (.interrupt q)).1.quitAttempts = s.quitAttempts + 1 ∧
      (stepIter s (.interrupt q)).1.terminated = true ∧
      (stepIter s (.interrupt q)).1.closed = (if q then i :: s.closed else s.closed) ∧
      (stepIter s (.interrupt q)).2 = none ∧
      (∀ it, stepIter (stepIter s (.interrupt q)).1 it = ((stepIter s (.interrupt q)).1, none)) := by
  have hstep : stepIter s (.interrupt q) =
      ({ s with sock := none, quitAttempts := s.quitAttempts + 1,
                closed := if q then i :: s.closed else s.closed,
                terminated := true }, none) := by
    unfold stepIter
    rw [if_neg (by simp [hterm]), hsock]
  rw [hstep]
  refine ⟨rfl, rfl, rfl, rfl, ?_⟩
  intro it
  exact stepIter_terminated rfl it

/-- C6 witness: shutdown from a concrete live state with a successful QUIT
send. -/
theorem c6_witness :
    (stepIter (reach [Iter.run ⟨ConnRes.connOk, true, WRes.wOk⟩])
        (Iter.interrupt true)).1.closed =
      (if true then 0 :: (reach [Iter.run ⟨ConnRes.connOk, true, WRes.wOk⟩]).closed
       else (reach [Iter.run ⟨ConnRes.connOk, true, WRes.wOk⟩]).closed) :=
  (c6_shutdown (reach [Iter.run ⟨ConnRes.connOk, true, WRes.wOk⟩]) 0 true rfl rfl).2.2.1

/-! ## C7: transport timeouts -/

/-- C7 counterexample: the claim says the transport-level connect runs
under the 5-second timeout.  The scripts call `sock.settimeout(5.0)` only
after `sock.connect(...)` has returned, so the connect runs with the
default timeout of a fresh socket, which is `None` (blocking, unbounded). -/
theorem c7_counterexample :
    (SockOp.connectOp, some 5) ∉ connectOpTimeouts ∧
      (SockOp.connectOp, (none : Option Nat)) ∈ connectOpTimeouts := by
  decide

/-- C7 (amended): every receive in `connect_and_auth` and in
`send_reading` runs under the 5-second timeout, as does the auth send; but
the transport-level connect (and the socket creation before it) runs with
no timeout at all, because `settimeout(5.0)` is called only after
`connect`. -/
theorem c7_timeouts :
    (∀ p ∈ connectOpTimeouts, p.1 = SockOp.recvOp → p.2 = some 5) ∧
      (∀ p ∈ sendReadingOpTimeouts, p.2 = some 5) ∧
      (SockOp.connectOp, (none : Option Nat)) ∈ connectOpTimeouts := by
  decide

/-- C7 witness: the auth receive runs with the 5-second timeout. -/
theorem c7_witness :
    (SockOp.recvOp, some 5) ∈ connectOpTimeouts ∧
      ((SockOp.recvOp, some 5) : SockOp × Option Nat).2 = some 5 :=
  ⟨by decide, c7_timeouts.1 (SockOp.recvOp, some 5) (by decide) rfl⟩

/-! ## C3: resource hygiene -/

theorem initState_inv : loopInv initState := by
  refine ⟨by simp [initState], by simp [initState], ?_, ?_, ?_, ?_⟩
  · intro i hi; simp [initState] at hi
  · intro i hi; simp [initState] at hi
  · intro i hi; simp [initState] at hi
  · intro _ i hi; simp [initState] at hi

theorem stepIter_inv {s : LoopState} (h : loopInv s) (it : Iter) :
    loopInv (stepIter s it).1 := by
  obtain ⟨hnd, hcd, hbound, hsub, hlive, hclosed⟩ := h
  by_cases hterm : s.terminated = true
  · rw [stepIter_terminated hterm]
    exact ⟨hnd, hcd, hbound, hsub, hlive, hclosed⟩
  · have hterm' : s.terminated = false := by
      revert hterm; cases s.terminated <;> simp
    cases it with
    | interrupt q =>
      cases hsock : s.sock with
      | none =>
        have hstep : stepIter s (.interrupt q) = ({ s with terminated := true }, none) := by
          unfold stepIter
          rw [if_neg (by simp [hterm']), hsock]
        rw [hstep]
        refine ⟨hnd, hcd, hbound, hsub, ?_, ?_⟩
        · intro i hi
          have hi' : s.sock = some i := hi
          rw [hsock] at hi'
          exact Option.noConfusion hi'
        · intro hf
          exact Bool.noConfusion (show true = false from hf)
      | some i =>
        obtain ⟨hmem, hncl⟩ := hlive i hsock
        have hstep : stepIter s (.interrupt q) =
            ({ s with sock := none, quitAttempts := s.quitAttempts + 1,
                      closed := if q then i :: s.closed else s.closed,
                      terminated := true }, none) := by
          unfold stepIter
          rw [if_neg (by simp [hterm']), hsock]
        rw [hstep]
        refine ⟨hnd, ?_, hbound, ?_, ?_, ?_⟩
        · cases q
          · exact hcd
          · exact List.nodup_cons.mpr ⟨hncl, hcd⟩
        · cases q
          · exact hsub
          · intro x hx
            rcases List.mem_cons.mp hx with rfl | hx
            · exact hmem
            · exact hsub x hx
        · intro x hx
          exact Option.noConfusion (show (none : Option Nat) = some x from hx)
        · intro hf
          exact Bool.noConfusion (show true = false from hf)
    | run e =>
      cases hsock : s.sock with
      | none =>
        by_cases hconn : e.conn = ConnRes.connOk
        · rw [stepIter_connOk hterm' hsock hconn]
          have hnotin : s.nOpened ∉ s.authed := fun hin =>
            absurd (hbound s.nOpened hin) (by omega)
          have hnotcl : s.nOpened ∉ s.closed := fun hin =>
            absurd (hbound s.nOpened (hsub s.nOpened hin)) (by omega)
          have hallcl : ∀ x ∈ s.authed, x ∈ s.closed := by
            intro x hx
            exact hclosed hterm' x hx (by rw [hsock]; intro hfx; cases hfx)
          have hnd2 : (s.nOpened :: s.authed).Nodup := List.nodup_cons.mpr ⟨hnotin, hnd⟩
          have hbound2 : ∀ x ∈ s.nOpened :: s.authed, x < s.nOpened + 1 := by
            intro x hx
            rcases List.mem_cons.mp hx with rfl | hx
            · omega
            · have := hbound x hx; omega
          by_cases hsamp : e.sampleOk = true
          · cases hwr : e.write with
            | wOk =>
              rw [afterConn_ok hsamp hwr]
              refine ⟨hnd2, hcd, hbound2, ?_, ?_, ?_⟩
              · intro x hx
                exact List.mem_cons_of_mem _ (hsub x hx)
              · intro x hx
                injection hx with hx
                subst hx
                exact ⟨List.mem_cons_self _ _, hnotcl⟩
              · intro _ x hx hne
                rcases List.mem_cons.mp hx with rfl | hx
                · exact absurd rfl hne
                · exact hallcl x hx
            | wFail =>
              rw [afterConn_fail (Or.inr hwr)]
              refine ⟨hnd2, List.nodup_cons.mpr ⟨hnotcl, hcd⟩, hbound2, ?_, ?_, ?_⟩
              · intro x hx
                rcases List.mem_cons.mp hx with rfl | hx
                · exact List.mem_cons_self _ _
                · exact List.mem_cons_of_mem _ (hsub x hx)
              · intro x hx
                exact Option.noConfusion (show (none : Option Nat) = some x from hx)
              · intro _ x hx _
                rcases List.mem_cons.mp hx with rfl | hx
                · exact List.mem_cons_self _ _
                · exact List.mem_cons_of_mem _ (hallcl x hx)
          · have hsamp' : e.sampleOk = false := by
              revert hsamp; cases e.sampleOk <;> simp
            rw [afterConn_fail (Or.inl hsamp')]
            refine ⟨hnd2, List.nodup_cons.mpr ⟨hnotcl, hcd⟩, hbound2, ?_, ?_, ?_⟩
            · intro x hx
              rcases List.mem_cons.mp hx with rfl | hx
              · exact List.mem_cons_self _ _
              · exact List.mem_cons_of_mem _ (hsub x hx)
            · intro x hx
              exact Option.noConfusion (show (none : Option Nat) = some x from hx)
            · intro _ x hx _
              rcases List.mem_cons.mp hx with rfl | hx
              · exact List.mem_cons_self _ _
              · exact List.mem_cons_of_mem _ (hallcl x hx)
        · rw [stepIter_connAbort hterm' hsock hconn]
          refine ⟨hnd, hcd, ?_, hsub, ?_, ?_⟩
          · intro x hx
            have hb := hbound x hx
            show x < s.nOpened + 1
            omega
          · intro x hx
            exact hlive x hx
          · intro _ x hx hne
            exact hclosed hterm' x hx hne
      | some i =>
        rw [stepIter_live hterm' hsock]
        obtain ⟨hmem, hncl⟩ := hlive i hsock
        by_cases hsamp : e.sampleOk = true
        · cases hwr : e.write with
          | wOk =>
            rw [afterConn_ok hsamp hwr]
            refine ⟨hnd, hcd, hbound, hsub, ?_, ?_⟩
            · intro x hx
              have hx' : s.sock = some x := hx
              rw [hsock] at hx'
              injection hx' with hx'
              subst hx'
              exact ⟨hmem, hncl⟩
            · intro _ x hx hne
              exact hclosed hterm' x hx hne
          | wFail =>
            rw [afterConn_fail (Or.inr hwr)]
            refine ⟨hnd, List.nodup_cons.mpr ⟨hncl, hcd⟩, hbound, ?_, ?_, ?_⟩
            · intro x hx
              rcases List.mem_cons.mp hx with rfl | hx
              · exact hmem
              · exact hsub x hx
            · intro x hx
              exact Option.noConfusion (show (none : Option Nat) = some x from hx)
            · intro _ x hx _
              by_cases hxi : x = i
              · subst hxi
                exact List.mem_cons_self _ _
              · refine List.mem_cons_of_mem _ ?_
                refine hclosed hterm' x hx ?_
                rw [hsock]
                intro hfx
                injection hfx with hfx
                exact hxi hfx.symm
        · have hsamp' : e.sampleOk = false := by
            revert hsamp; cases e.sampleOk <;> simp
          rw [afterConn_fail (Or.inl hsamp')]
          refine ⟨hnd, List.nodup_cons.mpr ⟨hncl, hcd⟩, hbound, ?_, ?_, ?_⟩
          · intro x hx
            rcases List.mem_cons.mp hx with rfl | hx
            · exact hmem
            · exact hsub x hx
          · intro x hx
            exact Option.noConfusion (show (none : Option Nat) = some x from hx)
          · intro _ x hx _
            by_cases hxi : x = i
            · subst hxi
              exact List.mem_cons_self _ _
            · refine List.mem_cons_of_mem _ ?_
              refine hclosed hterm' x hx ?_
              rw [hsock]
              intro hfx
              injection hfx with hfx
              exact hxi hfx.symm

theorem runLoop_inv (its : List Iter) : ∀ s, loopInv s → loopInv (runLoop s its) := by
  induction its with
  | nil => intro s h; exact h
  | cons it t ih =>
    intro s h
    rw [runLoop_cons]
    exact ih _ (stepIter_inv h it)

theorem reach_inv (its : List Iter) : loopInv (reach its) :=
  runLoop_inv its initState initState_inv

/-- C3 counterexample: the claim says that after any transition into
`Failed`, every opened transport that is not live has been closed exactly
once before a new one is opened.  A failed auth handshake raises inside
`connect_and_auth` before the caller's `sock` variable is assigned, so the
generic handler sees `sock is None` and closes nothing: after one
auth-failure iteration the opened transport 0 is unclosed (and a second
iteration then opens transport 1). -/
theorem c3_counterexample :
    ¬ claimedHygiene (reach [Iter.run ⟨ConnRes.authFail, true, WRes.wOk⟩]) ∧
      (reach [Iter.run ⟨ConnRes.authFail, true, WRes.wOk⟩]).nOpened = 1 ∧
      (reach [Iter.run ⟨ConnRes.authFail, true, WRes.wOk⟩]).sock = none ∧
      (reach [Iter.run ⟨ConnRes.authFail, true, WRes.wOk⟩]).closed = [] ∧
      (reach [Iter.run ⟨ConnRes.authFail, true, WRes.wOk⟩,
              Iter.run ⟨ConnRes.connFail, true, WRes.wOk⟩]).nOpened = 2 := by
  refine ⟨?_, by decide, by decide, by decide, by decide⟩
  intro h
  have := h 0 (by decide) (by decide)
  revert this
  decide

/-- C3 (amended): in every non-terminated reachable state, every transport
that was returned by a successful `connect_and_auth` and is not the
currently live one has been closed exactly once; transports abandoned by a
failed connect or failed auth handshake are never explicitly closed (their
descriptors are reclaimed only by interpreter shutdown / GC). -/
theorem c3_authed_hygiene (its : List Iter) (h : (reach its).terminated = false) :
    codeHygiene (reach its) := by
  obtain ⟨hnd, hcd, hbound, hsub, hlive, hclosed⟩ := reach_inv its
  intro i hi
  by_cases hs : (reach its).sock = some i
  · exact Or.inl ⟨hs, (hlive i hs).2⟩
  · refine Or.inr ⟨hs, ?_⟩
    exact List.count_eq_one_of_mem hcd (hclosed h i hi hs)

/-- C3 witness: after a successful connection followed by a write failure,
transport 0 is authenticated, no longer live, and closed exactly once. -/
theorem c3_witness :
    (reach [Iter.run ⟨ConnRes.connOk, true, WRes.wOk⟩,
            Iter.run ⟨ConnRes.connOk, true, WRes.wFail⟩]).terminated = false ∧
      codeHygiene (reach [Iter.run ⟨ConnRes.connOk, true, WRes.wOk⟩,
        Iter.run ⟨ConnRes.connOk, true, WRes.wFail⟩]) :=
  ⟨rfl, c3_authed_hygiene _ rfl⟩

/-! ## C8: full write of the encoded line -/

/-- C8 counterexample: the claim says all bytes of the encoded line reach
the transport even when it accepts fewer bytes than offered.  The code
calls `sock.send(line.encode())` once and ignores the returned count, so a
transport that accepts 1 byte of scenario C's line `{"temp": 21.5}\n`
receives only `{`. -/
theorem c8_counterexample :
    sendReadingTransmitted [("temp".data, ⟨false, ['2', '1'], some ['5'], none⟩)] 1 ≠
        encodeLine [("temp".data, ⟨false, ['2', '1'], some ['5'], none⟩)] ∧
      sendReadingTransmitted [("temp".data, ⟨false, ['2', '1'], some ['5'], none⟩)] 1 =
        ['\x7b'] := by
  decide

/-- C8 (amended): `send_reading` hands the encoded line to a single
`sock.send` call and never re-offers the remainder: the whole line is
transmitted iff the transport accepts at least the line's length, and when
it accepts fewer bytes only that prefix is transmitted. -/
theorem c8_single_send (r : Record) (accepted : Nat) :
    ((encodeLine r).length ≤ accepted →
        sendReadingTransmitted r accepted = encodeLine r) ∧
      (accepted < (encodeLine r).length →
        (sendReadingTransmitted r accepted).length = accepted ∧
          sendReadingTransmitted r accepted ≠ encodeLine r) := by
  constructor
  · intro h
    exact List.take_of_length_le h
  · intro h
    have hlen : (sendReadingTransmitted r accepted).length = accepted := by
      unfold sendReadingTransmitted
      rw [List.length_take]
      omega
    refine ⟨hlen, ?_⟩
    intro e
    rw [e] at hlen
    omega

/-- C8 witness: a transport accepting 1000 bytes receives scenario C's
whole line. -/
theorem c8_witness :
    (encodeLine [("temp".data, ⟨false, ['2', '1'], some ['5'], none⟩)]).length ≤ 1000 ∧
      sendReadingTransmitted [("temp".data, ⟨false, ['2', '1'], some ['5'], none⟩)] 1000 =
        encodeLine [("temp".data, ⟨false, ['2', '1'], some ['5'], none⟩)] :=
  ⟨by decide,
    (c8_single_send [("temp".data, ⟨false, ['2', '1'], some ['5'], none⟩)] 1000).1 (by decide)⟩

/-! ## Lemmas for the JSON round trip (C10) -/

theorem char_valid_toNat (c : Char) :
    c.toNat < 55296 ∨ (57343 < c.toNat ∧ c.toNat < 1114112) := c.valid

theorem hexVal_hexDigitChar : ∀ n, n < 16 → hexVal (hexDigitChar n) = some n := by
  decide

theorem hex4Val_hex4 {n : Nat} (h : n < 65536) :
    hex4Val (hexDigitChar (n / 4096 % 16)) (hexDigitChar (n / 256 % 16))
      (hexDigitChar (n / 16 % 16)) (hexDigitChar (n % 16)) = some n := by
  have h1 := hexVal_hexDigitChar (n / 4096 % 16) (by omega)
  have h2 := hexVal_hexDigitChar (n / 256 % 16) (by omega)
  have h3 := hexVal_hexDigitChar (n / 16 % 16) (by omega)
  have h4 := hexVal_hexDigitChar (n % 16) (by omega)
  unfold hex4Val
  rw [h1, h2, h3, h4]
  exact congrArg some (by omega)

theorem parseStrBodyF_quote (fuel : Nat) (rest : List Char) :
    parseStrBodyF (fuel + 1) ('"' :: rest) = some ([], rest) := by
  rw [parseStrBodyF.eq_def]
  simp

theorem parseStrBodyF_plain {c : Char} (h1 : c ≠ '"') (h2 : c ≠ '\\')
    (h3 : ¬ c.toNat < 32) (fuel : Nat) (X : List Char) :
    parseStrBodyF (fuel + 1) (c :: X) = cons1 c (parseStrBodyF fuel X) := by
  rw [parseStrBodyF.eq_def]
  simp only [if_neg h1, if_neg h2, if_neg h3]

theorem parseStrBodyF_shortEsc {e ch : Char} (he : e ≠ 'u') (h : shortEsc e = some ch)
    (fuel : Nat) (X : List Char) :
    parseStrBodyF (fuel + 1) ('\\' :: e :: X) = cons1 ch (parseStrBodyF fuel X) := by
  rw [parseStrBodyF.eq_def]
  simp only [if_neg he, h]
  rfl

theorem parseStrBodyF_u {X X' : List Char} {ch : Char} (hd : decodeU X = some (ch, X'))
    (fuel : Nat) :
    parseStrBodyF (fuel + 1) ('\\' :: 'u' :: X) = cons1 ch (parseStrBodyF fuel X') := by
  rw [parseStrBodyF.eq_def]
  simp only [hd]
  rfl

theorem decodeU_single {c : Char} (hlt : c.toNat < 65536) (X : List Char) :
    decodeU (hex4 c.toNat ++ X) = some (c, X) := by
  have hval := char_valid_toNat c
  show decodeU (hexDigitChar (c.toNat / 4096 % 16) :: hexDigitChar (c.toNat / 256 % 16) ::
    hexDigitChar (c.toNat / 16 % 16) :: hexDigitChar (c.toNat % 16) :: X) = some (c, X)
  rw [decodeU]
  simp only [hex4Val_hex4 hlt]
  rw [if_neg (fun hc : 55296 ≤ c.toNat ∧ c.toNat ≤ 56319 => by omega),
    if_neg (fun hc : 56320 ≤ c.toNat ∧ c.toNat ≤ 57343 => by omega),
    Char.ofNat_toNat]

theorem decodeU_pair {c : Char} (hge : 65536 ≤ c.toNat) (X : List Char) :
    decodeU (hex4 (55296 + (c.toNat - 65536) / 1024) ++ '\\' :: 'u' ::
        hex4 (56320 + (c.toNat - 65536) % 1024) ++ X) = some (c, X) := by
  have hval := char_valid_toNat c
  have hhiv : 55296 + (c.toNat - 65536) / 1024 < 65536 := by omega
  have hlov : 56320 + (c.toNat - 65536) % 1024 < 65536 := by omega
  show decodeU (hexDigitChar ((55296 + (c.toNat - 65536) / 1024) / 4096 % 16) ::
      hexDigitChar ((55296 + (c.toNat - 65536) / 1024) / 256 % 16) ::
      hexDigitChar ((55296 + (c.toNat - 65536) / 1024) / 16 % 16) ::
      hexDigitChar ((55296 + (c.toNat - 65536) / 1024) % 16) ::
      ('\\' :: 'u' :: hex4 (56320 + (c.toNat - 65536) % 1024) ++ X)) = some (c, X)
  rw [decodeU]
  simp only [hex4Val_hex4 hhiv]
  rw [if_pos (by constructor <;> omega)]
  show decodeLowSur (55296 + (c.toNat - 65536) / 1024)
    ('\\' :: 'u' :: hexDigitChar ((56320 + (c.toNat - 65536) % 1024) / 4096 % 16) ::
      hexDigitChar ((56320 + (c.toNat - 65536) % 1024) / 256 % 16) ::
      hexDigitChar ((56320 + (c.toNat - 65536) % 1024) / 16 % 16) ::
      hexDigitChar ((56320 + (c.toNat - 65536) % 1024) % 16) :: X) = some (c, X)
  rw [decodeLowSur]
  rw [if_pos ⟨rfl, rfl⟩]
  simp only [hex4Val_hex4 hlov]
  rw [if_pos (by constructor <;> omega)]
  have harith : 65536 + (55296 + (c.toNat - 65536) / 1024 - 55296) * 1024 +
      (56320 + (c.toNat - 65536) % 1024 - 56320) = c.toNat := by omega
  rw [harith, Char.ofNat_toNat]

theorem parseStrBodyF_escChar (c : Char) (fuel : Nat) (X : List Char) :
    parseStrBodyF (fuel + 1) (escChar c ++ X) = cons1 c (parseStrBodyF fuel X) := by
  have hval := char_valid_toNat c
  by_cases h1 : c = '"'
  · subst h1
    exact parseStrBodyF_shortEsc (by decide) (by decide) fuel X
  by_cases h2 : c = '\\'
  · subst h2
    rw [show escChar '\\' = ['\\', '\\'] from by decide]
    exact parseStrBodyF_shortEsc (by decide) (by decide) fuel X
  by_cases h3 : c = '\n'
  · subst h3
    rw [show escChar '\n' = ['\\', 'n'] from by decide]
    exact parseStrBodyF_shortEsc (by decide) (by decide) fuel X
  by_cases h4 : c = '\r'
  · subst h4
    rw [show escChar '\r' = ['\\', 'r'] from by decide]
    exact parseStrBodyF_shortEsc (by decide) (by decide) fuel X
  by_cases h5 : c = '\t'
  · subst h5
    rw [show escChar '\t' = ['\\', 't'] from by decide]
    exact parseStrBodyF_shortEsc (by decide) (by decide) fuel X
  by_cases h6 : c = Char.ofNat 8
  · subst h6
    rw [show escChar (Char.ofNat 8) = ['\\', 'b'] from by decide]
    rw [show (['\\', 'b'] : List Char) ++ X = '\\' :: 'b' :: X from rfl]
    exact parseStrBodyF_shortEsc (by decide) (by decide) fuel X
  by_cases h7 : c = Char.ofNat 12
  · subst h7
    rw [show escChar (Char.ofNat 12) = ['\\', 'f'] from by decide]
    rw [show (['\\', 'f'] : List Char) ++ X = '\\' :: 'f' :: X from rfl]
    exact parseStrBodyF_shortEsc (by decide) (by decide) fuel X
  by_cases h8 : 32 ≤ c.toNat ∧ c.toNat ≤ 126
  · rw [show escChar c = [c] from by
      unfold escChar
      rw [if_neg h1, if_neg h2, if_neg h3, if_neg h4, if_neg h5, if_neg h6, if_neg h7,
        if_pos h8]]
    exact parseStrBodyF_plain h1 h2 (by omega) fuel X
  by_cases h9 : c.toNat < 65536
  · rw [show escChar c = '\\' :: 'u' :: hex4 c.toNat from by
      unfold escChar
      rw [if_neg h1, if_neg h2, if_neg h3, if_neg h4, if_neg h5, if_neg h6, if_neg h7,
        if_neg h8, if_pos h9]]
    rw [show ('\\' :: 'u' :: hex4 c.toNat) ++ X = '\\' :: 'u' :: (hex4 c.toNat ++ X) from rfl]
    exact parseStrBodyF_u (decodeU_single h9 X) fuel
  · rw [show escChar c = ('\\' :: 'u' :: hex4 (55296 + (c.toNat - 65536) / 1024)) ++
        ('\\' :: 'u' :: hex4 (56320 + (c.toNat - 65536) % 1024)) from by
      unfold escChar
      rw [if_neg h1, if_neg h2, if_neg h3, if_neg h4, if_neg h5, if_neg h6, if_neg h7,
        if_neg h8, if_neg h9]]
    rw [show (('\\' :: 'u' :: hex4 (55296 + (c.toNat - 65536) / 1024)) ++
        ('\\' :: 'u' :: hex4 (56320 + (c.toNat - 65536) % 1024))) ++ X =
      '\\' :: 'u' :: (hex4 (55296 + (c.toNat - 65536) / 1024) ++ '\\' :: 'u' ::
        hex4 (56320 + (c.toNat - 65536) % 1024) ++ X) from by
      simp]
    exact parseStrBodyF_u (decodeU_pair (by omega) X) fuel

theorem parseStrBodyF_escape (s : List Char) :
    ∀ fuel, s.length < fuel → ∀ rest,
      parseStrBodyF fuel (escape s ++ '"' :: rest) = some (s, rest) := by
  induction s with
  | nil =>
    intro fuel hf rest
    match fuel, hf with
    | g + 1, _ =>
      show parseStrBodyF (g + 1) ('"' :: rest) = some ([], rest)
      exact parseStrBodyF_quote g rest
  | cons c t ih =>
    intro fuel hf rest
    match fuel, hf with
    | g + 1, hf =>
      have : escape (c :: t) ++ '"' :: rest = escChar c ++ (escape t ++ '"' :: rest) := by
        show (escChar c ++ escape t) ++ '"' :: rest = _
        rw [List.append_assoc]
      rw [this, parseStrBodyF_escChar c g (escape t ++ '"' :: rest)]
      rw [ih g (by simpa using hf) rest]
      rfl

theorem escChar_length_pos (c : Char) : 1 ≤ (escChar c).length := by
  unfold escChar
  repeat' split
  all_goals simp [hex4]

theorem escape_length_ge (s : List Char) : s.length ≤ (escape s).length := by
  induction s with
  | nil => simp [escape]
  | cons c t ih =>
    have : escape (c :: t) = escChar c ++ escape t := rfl
    rw [this, List.length_append, List.length_cons]
    have := escChar_length_pos c
    omega

theorem parseStrBody_escape (s : List Char) (rest : List Char) :
    parseStrBody (escape s ++ '"' :: rest) = some (s, rest) := by
  unfold parseStrBody
  apply parseStrBodyF_escape
  have h1 := escape_length_ge s
  rw [List.length_append, List.length_cons]
  omega

/-- Head of the remaining input cannot extend a number literal: empty, or
a character that is not a digit, `.`, `e`, `E`.  In an encoded object the
character after a value is always `,` or the closing brace. -/
def numDelim : List Char → Prop
  | [] => True
  | c :: _ => isDigitC c = false ∧ c ≠ '.' ∧ c ≠ 'e' ∧ c ≠ 'E'

/-- Printed fraction part of a number literal. -/
def encFracPart : Option (List Char) → List Char
  | none => []
  | some f => '.' :: f

/-- Printed exponent part of a number literal. -/
def encExpPart : Option (Bool × List Char) → List Char
  | none => []
  | some (sn, ds) => 'e' :: (if sn then '-' else '+') :: ds

theorem encNum_parts (v : JNum) :
    encNum v = (if v.neg then ['-'] else []) ++ v.ip ++
      (encFracPart v.fp ++ encExpPart v.ex) := by
  obtain ⟨neg, ip, fp, ex⟩ := v
  unfold encNum encFracPart encExpPart
  cases fp <;> cases ex <;> simp

/-- Head of a list is not a digit. -/
def headNotDigit : List Char → Prop
  | [] => True
  | c :: _ => isDigitC c = false

theorem headNotDigit_of_numDelim {rest : List Char} (h : numDelim rest) :
    headNotDigit rest := by
  cases rest with
  | nil => trivial
  | cons c t => exact h.1

theorem takeWhile_digits (ds : List Char) (hd : ∀ d ∈ ds, isDigitC d = true)
    {rest : List Char} (hr : headNotDigit rest) :
    (ds ++ rest).takeWhile isDigitC = ds ∧ (ds ++ rest).dropWhile isDigitC = rest := by
  induction ds with
  | nil =>
    cases rest with
    | nil => exact ⟨rfl, rfl⟩
    | cons r t =>
      have hr' : isDigitC r = false := hr
      constructor
      · rw [List.nil_append, List.takeWhile_cons, if_neg (by simp [hr'])]
      · rw [List.nil_append, List.dropWhile_cons, if_neg (by simp [hr'])]
  | cons d t ih =>
    have hdd := hd d (by simp)
    have iht := ih (fun x hx => hd x (by simp [hx]))
    constructor
    · rw [List.cons_append, List.takeWhile_cons, if_pos hdd, iht.1]
    · rw [List.cons_append, List.dropWhile_cons, if_pos hdd, iht.2]

theorem parseExpDigits_enc (neg : Bool) (ip : List Char) (fp : Option (List Char))
    (sn : Bool) {ds : List Char} (hds : wfDigits ds = true) {rest : List Char}
    (hr : numDelim rest) :
    parseExpDigits neg ip fp sn (ds ++ rest) = some (⟨neg, ip, fp, some (sn, ds)⟩, rest) := by
  have hd : ∀ d ∈ ds, isDigitC d = true := by
    intro d hdm
    have := (Bool.and_eq_true _ _).mp hds
    exact List.all_eq_true.mp this.2 d hdm
  have hne : ¬ds.isEmpty = true := by
    have := (Bool.and_eq_true _ _).mp hds
    simpa using this.1
  obtain ⟨htake, hdrop⟩ := takeWhile_digits ds hd (headNotDigit_of_numDelim hr)
  unfold parseExpDigits
  rw [htake, hdrop, if_neg hne]

theorem parseExpTail_enc (neg : Bool) (ip : List Char) (fp : Option (List Char))
    {sn : Bool} {ds : List Char} (hds : wfDigits ds = true) {rest : List Char}
    (hr : numDelim rest) :
    parseExpTail neg ip fp ((if sn then '-' else '+') :: (ds ++ rest)) =
      some (⟨neg, ip, fp, some (sn, ds)⟩, rest) := by
  cases sn
  · rw [if_neg (by simp)]
    rw [parseExpTail.eq_def]
    simp only [if_pos rfl]
    exact parseExpDigits_enc neg ip fp false hds hr
  · rw [if_pos rfl]
    rw [parseExpTail.eq_def]
    simp only [if_neg (by decide : ¬('-' = '+')), if_pos rfl]
    exact parseExpDigits_enc neg ip fp true hds hr

theorem parseNumExp_delim (neg : Bool) (ip : List Char) (fp : Option (List Char))
    {rest : List Char} (hr : numDelim rest) :
    parseNumExp neg ip fp rest = some (⟨neg, ip, fp, none⟩, rest) := by
  cases rest with
  | nil => rfl
  | cons c t =>
    have hcond : ¬(c = 'e' ∨ c = 'E') := by
      intro h
      rcases h with h | h
      · exact hr.2.2.1 h
      · exact hr.2.2.2 h
    rw [parseNumExp.eq_def]
    simp only [if_neg hcond]

theorem parseNumExp_enc (neg : Bool) (ip : List Char) (fp : Option (List Char))
    {ex : Option (Bool × List Char)}
    (hex : match ex with
           | none => True
           | some (_, ds) => wfDigits ds = true)
    {rest : List Char} (hr : numDelim rest) :
    parseNumExp neg ip fp (encExpPart ex ++ rest) = some (⟨neg, ip, fp, ex⟩, rest) := by
  match ex with
  | none => exact parseNumExp_delim neg ip fp hr
  | some (sn, ds) =>
    show parseNumExp neg ip fp ('e' :: ((if sn then '-' else '+') :: (ds ++ rest))) = _
    rw [parseNumExp.eq_def]
    simp only [if_pos (Or.inl rfl : 'e' = 'e' ∨ 'e' = 'E')]
    exact parseExpTail_enc neg ip fp hex hr

theorem headNotDigit_expPart (ex : Option (Bool × List Char)) {rest : List Char}
    (hr : numDelim rest) : headNotDigit (encExpPart ex ++ rest) := by
  match ex with
  | none => exact headNotDigit_of_numDelim hr
  | some (sn, ds) => exact (by decide : isDigitC 'e' = false)

theorem parseNumAfterInt_enc (neg : Bool) (ip : List Char)
    {fp : Option (List Char)} {ex : Option (Bool × List Char)}
    (hfp : match fp with
           | none => True
           | some f => wfDigits f = true)
    (hex : match ex with
           | none => True
           | some (_, ds) => wfDigits ds = true)
    {rest : List Char} (hr : numDelim rest) :
    parseNumAfterInt neg ip (encFracPart fp ++ (encExpPart ex ++ rest)) =
      some (⟨neg, ip, fp, ex⟩, rest) := by
  match fp with
  | none =>
    show parseNumAfterInt neg ip (encExpPart ex ++ rest) = _
    match hx : encExpPart ex ++ rest with
    | [] =>
      have : parseNumExp neg ip none (encExpPart ex ++ rest) = some (⟨neg, ip, none, ex⟩, rest) :=
        parseNumExp_enc neg ip none hex hr
      rw [hx] at this
      exact this
    | c :: t =>
      have hcdot : c ≠ '.' := by
        intro e
        subst e
        have := headNotDigit_expPart ex hr
        rw [hx] at this
        match ex, hx with
        | none, hx =>
          have h2 : numDelim ('.' :: t) := by rw [← hx]; exact hr
          exact h2.2.1 rfl
        | some (sn, ds), hx =>
          injection hx with h1 _
          exact absurd h1.symm (by decide)
      rw [parseNumAfterInt.eq_def]
      simp only [if_neg hcdot]
      rw [← hx]
      exact parseNumExp_enc neg ip none hex hr
  | some f =>
    show parseNumAfterInt neg ip ('.' :: (f ++ (encExpPart ex ++ rest))) = _
    have hd : ∀ d ∈ f, isDigitC d = true := by
      intro d hdm
      have := (Bool.and_eq_true _ _).mp hfp
      exact List.all_eq_true.mp this.2 d hdm
    have hne : ¬f.isEmpty = true := by
      have := (Bool.and_eq_true _ _).mp hfp
      simpa using this.1
    obtain ⟨htake, hdrop⟩ := takeWhile_digits f hd (headNotDigit_expPart ex hr)
    rw [parseNumAfterInt.eq_def]
    simp only [reduceIte, htake, hdrop]
    rw [if_neg hne]
    exact parseNumExp_enc neg ip (some f) hex hr

theorem wfNum_parts {v : JNum} (h : wfNum v = true) :
    (¬v.ip.isEmpty = true ∧ ∀ d ∈ v.ip, isDigitC d = true) ∧
      (v.ip = ['0'] ∨ v.ip.head? ≠ some '0') ∧
      (match v.fp with
       | none => True
       | some f => wfDigits f = true) ∧
      (match v.ex with
       | none => True
       | some (_, ds) => wfDigits ds = true) := by
  unfold wfNum at h
  rw [Bool.and_eq_true, Bool.and_eq_true, Bool.and_eq_true] at h
  obtain ⟨⟨⟨hip, hlz⟩, hfp⟩, hex⟩ := h
  refine ⟨?_, ?_, ?_, ?_⟩
  · unfold wfDigits at hip
    rw [Bool.and_eq_true] at hip
    exact ⟨by simpa using hip.1, fun d hd => List.all_eq_true.mp hip.2 d hd⟩
  · rw [Bool.or_eq_true] at hlz
    rcases hlz with h | h
    · exact Or.inl (by simpa using h)
    · exact Or.inr (by simpa using h)
  · match hfpx : v.fp with
    | none => trivial
    | some f => rw [hfpx] at hfp; exact hfp
  · match hexx : v.ex with
    | none => trivial
    | some (sn, ds) => rw [hexx] at hex; exact hex

theorem parseNumCore_enc {v : JNum} (hwf : wfNum v = true) (neg : Bool)
    {rest : List Char} (hr : numDelim rest) :
    parseNumCore neg (v.ip ++ (encFracPart v.fp ++ (encExpPart v.ex ++ rest))) =
      some (⟨neg, v.ip, v.fp, v.ex⟩, rest) := by
  obtain ⟨⟨hipne, hipd⟩, hlz, hfp, hex⟩ := wfNum_parts hwf
  match hip : v.ip with
  | [] =>
    rw [hip] at hipne
    exact absurd rfl hipne
  | d :: t =>
    rw [hip] at hipd hlz
    have hdd : isDigitC d = true := hipd d (by simp)
    show parseNumCore neg (d :: (t ++ (encFracPart v.fp ++ (encExpPart v.ex ++ rest)))) = _
    by_cases hz : d = '0'
    · have ht : t = [] := by
        subst hz
        rcases hlz with h | h
        · injection h with h1 h2
        · exact absurd (rfl : ('0' :: t).head? = some '0') h
      subst hz ht
      rw [parseNumCore.eq_def]
      simp only [reduceIte]
      exact parseNumAfterInt_enc neg ['0'] hfp hex hr
    · have hfpx : headNotDigit (encFracPart v.fp ++ (encExpPart v.ex ++ rest)) := by
        match hf : v.fp with
        | none => exact headNotDigit_expPart v.ex hr
        | some f => exact (by decide : isDigitC '.' = false)
      obtain ⟨htake, hdrop⟩ :=
        takeWhile_digits t (fun x hx => hipd x (by simp [hx])) hfpx
      rw [parseNumCore.eq_def]
      simp only [if_neg hz, if_pos hdd, htake, hdrop]
      exact parseNumAfterInt_enc neg (d :: t) hfp hex hr

theorem parseNum_encNum {v : JNum} (hwf : wfNum v = true) {rest : List Char}
    (hr : numDelim rest) :
    parseNum (encNum v ++ rest) = some (v, rest) := by
  obtain ⟨⟨hipne, hipd⟩, _, _, _⟩ := wfNum_parts hwf
  rw [encNum_parts, List.append_assoc, List.append_assoc, List.append_assoc]
  cases hneg : v.neg
  · have hv2 : (⟨false, v.ip, v.fp, v.ex⟩ : JNum) = v := by rw [← hneg]
    conv_rhs => rw [← hv2]
    rw [if_neg Bool.false_ne_true, List.nil_append]
    match hip : v.ip with
    | [] =>
      rw [hip] at hipne
      exact absurd rfl hipne
    | d :: t =>
      rw [hip] at hipd
      have hdd : isDigitC d = true := hipd d (by simp)
      have hdm : d ≠ '-' := by
        intro e
        rw [e, isDigitC_iff] at hdd
        revert hdd
        decide
      show parseNum (d :: (t ++ (encFracPart v.fp ++ (encExpPart v.ex ++ rest)))) = _
      rw [parseNum.eq_def]
      simp only [if_neg hdm]
      have h2 := parseNumCore_enc hwf false hr
      rw [hip] at h2
      exact h2
  · have hv2 : (⟨true, v.ip, v.fp, v.ex⟩ : JNum) = v := by rw [← hneg]
    conv_rhs => rw [← hv2]
    rw [if_pos rfl]
    show parseNum ('-' :: (v.ip ++ (encFracPart v.fp ++ (encExpPart v.ex ++ rest)))) = _
    rw [parseNum.eq_def]
    simp only [reduceIte]
    exact parseNumCore_enc hwf true hr

theorem jsonWs_eq_false_of_isDigitC {c : Char} (h : isDigitC c = true) : jsonWs c = false := by
  rw [isDigitC_iff] at h
  simp only [jsonWs, Bool.or_eq_false_iff, beq_eq_false_iff_ne, ne_eq]
  omega

theorem skipWs_cons_of_not {c : Char} (h : jsonWs c = false) (t : List Char) :
    skipWs (c :: t) = c :: t := by
  unfold skipWs
  rw [List.dropWhile_cons, if_neg (by simp [h])]

theorem skipWs_cons_space (t : List Char) : skipWs (' ' :: t) = skipWs t := by
  unfold skipWs
  rw [List.dropWhile_cons, if_pos (by decide)]

theorem skipWs_encNum {v : JNum} (hwf : wfNum v = true) (rest : List Char) :
    skipWs (encNum v ++ rest) = encNum v ++ rest := by
  obtain ⟨⟨hipne, hipd⟩, _, _, _⟩ := wfNum_parts hwf
  rw [encNum_parts, List.append_assoc, List.append_assoc, List.append_assoc]
  cases hneg : v.neg
  · rw [if_neg Bool.false_ne_true, List.nil_append]
    match hip : v.ip with
    | [] =>
      rw [hip] at hipne
      exact absurd rfl hipne
    | d :: t =>
      rw [hip] at hipd
      show skipWs (d :: _) = _
      exact skipWs_cons_of_not (jsonWs_eq_false_of_isDigitC (hipd d (by simp))) _
  · rw [if_pos rfl]
    show skipWs ('-' :: _) = _
    exact skipWs_cons_of_not (by decide) _

theorem parsePair_enc (k : List Char) {v : JNum} (hwf : wfNum v = true)
    {rest : List Char} (hr : numDelim rest) :
    parsePair (encPair (k, v) ++ rest) = some ((k, v), rest) := by
  have hshape : encPair (k, v) ++ rest =
      '"' :: (escape k ++ '"' :: (':' :: ' ' :: (encNum v ++ rest))) := by
    show (('"' :: escape k ++ ['"']) ++ ':' :: ' ' :: encNum v) ++ rest = _
    simp
  rw [hshape]
  rw [parsePair.eq_def]
  simp only [skipWs_cons_of_not (by decide : jsonWs '"' = false), reduceIte,
    parseStrBody_escape, skipWs_cons_of_not (by decide : jsonWs ':' = false),
    skipWs_cons_space, skipWs_encNum hwf, parseNum_encNum hwf hr]

theorem parsePair_cons_space (X : List Char) : parsePair (' ' :: X) = parsePair X := by
  conv_lhs => rw [parsePair.eq_def]
  conv_rhs => rw [parsePair.eq_def]
  rw [skipWs_cons_space]

theorem parseMembers_cons_space (fuel : Nat) (X : List Char) :
    parseMembers (fuel + 1) (' ' :: X) = parseMembers (fuel + 1) X := by
  rw [parseMembers.eq_def]
  conv_rhs => rw [parseMembers.eq_def]
  simp only [parsePair_cons_space]

theorem wfRecord_head {p : List Char × JNum} {t : Record}
    (h : wfRecord (p :: t) = true) : wfNum p.2 = true := by
  unfold wfRecord at h
  have := List.all_eq_true.mp h p (by simp)
  simpa using this

theorem wfRecord_tail {p : List Char × JNum} {t : Record}
    (h : wfRecord (p :: t) = true) : wfRecord t = true := by
  unfold wfRecord at h ⊢
  rw [List.all_eq_true] at h ⊢
  intro x hx
  exact h x (by simp [hx])

theorem parseMembers_enc (r : Record) :
    ∀ fuel, r ≠ [] → wfRecord r = true → r.length ≤ fuel + 1 →
      ∀ rest : List Char,
        parseMembers (fuel + 1) (encItems r ++ '}' :: rest) = some (r, rest) := by
  induction r with
  | nil => intro fuel h; exact absurd rfl h
  | cons p t ih =>
    intro fuel _ hwf hlen rest
    obtain ⟨k, v⟩ := p
    have hwfp : wfNum v = true := wfRecord_head hwf
    cases t with
    | nil =>
      show parseMembers (fuel + 1) (encPair (k, v) ++ '}' :: rest) = some ([(k, v)], rest)
      rw [parseMembers.eq_def]
      simp only [parsePair_enc k hwfp
          (show numDelim ('}' :: rest) from ⟨by decide, by decide, by decide, by decide⟩),
        skipWs_cons_of_not (by decide : jsonWs '}' = false),
        if_neg (by decide : ¬('}' = ',')), reduceIte]
    | cons q u =>
      have hshape : encItems ((k, v) :: q :: u) ++ '}' :: rest =
          encPair (k, v) ++ (',' :: ' ' :: (encItems (q :: u) ++ '}' :: rest)) := by
        show (encPair (k, v) ++ ',' :: ' ' :: encItems (q :: u)) ++ '}' :: rest = _
        simp
      rw [hshape]
      match fuel, hlen with
      | g + 1, hlen =>
        rw [parseMembers.eq_def]
        simp only [parsePair_enc k hwfp
            (show numDelim (',' :: ' ' :: (encItems (q :: u) ++ '}' :: rest)) from
              ⟨by decide, by decide, by decide, by decide⟩),
          skipWs_cons_of_not (by decide : jsonWs ',' = false), reduceIte]
        rw [parseMembers_cons_space]
        rw [ih g (by simp) (wfRecord_tail hwf)
          (by simp only [List.length_cons] at hlen ⊢; omega) rest]
        rfl

theorem encPair_length_pos (p : List Char × JNum) : 1 ≤ (encPair p).length := by
  show 1 ≤ (encStr p.1 ++ ':' :: ' ' :: encNum p.2).length
  rw [List.length_append]
  show 1 ≤ ('"' :: (escape p.1 ++ ['"'])).length + _
  rw [List.length_cons]
  omega

theorem encItems_length_ge (r : Record) : r.length ≤ (encItems r).length := by
  induction r with
  | nil => simp [encItems]
  | cons p t ih =>
    cases t with
    | nil =>
      have := encPair_length_pos p
      rw [show encItems [p] = encPair p from rfl]
      simpa using this
    | cons q u =>
      rw [show encItems (p :: q :: u) = encPair p ++ ',' :: ' ' :: encItems (q :: u) from rfl]
      rw [List.length_append]
      have h1 := encPair_length_pos p
      simp only [List.length_cons] at *
      omega

theorem encItems_cons_head (k : List Char) (v : JNum) (t : Record) :
    ∃ X, encItems ((k, v) :: t) = '"' :: X := by
  cases t with
  | nil =>
    refine ⟨escape k ++ '"' :: (':' :: ' ' :: encNum v), ?_⟩
    show ('"' :: escape k ++ ['"']) ++ ':' :: ' ' :: encNum v = _
    simp
  | cons q u =>
    refine ⟨(escape k ++ '"' :: (':' :: ' ' :: encNum v)) ++ ',' :: ' ' :: encItems (q :: u), ?_⟩
    show (('"' :: escape k ++ ['"']) ++ ':' :: ' ' :: encNum v) ++ ',' :: ' ' :: encItems (q :: u) = _
    simp

theorem loads_dumps {r : Record} (hwf : wfRecord r = true) : loads (dumps r) = some r := by
  cases r with
  | nil => decide
  | cons p t =>
    obtain ⟨k, v⟩ := p
    unfold loads
    have hobj : parseObj ((dumps ((k, v) :: t)).length + 1) (dumps ((k, v) :: t)) =
        some ((k, v) :: t, []) := by
      obtain ⟨X, hX⟩ := encItems_cons_head k v t
      have ht : encItems ((k, v) :: t) ++ ['}'] = '"' :: (X ++ ['}']) := by
        rw [hX]
        simp
      show parseObj _ ('{' :: (encItems ((k, v) :: t) ++ ['}'])) = _
      rw [parseObj.eq_def]
      rw [skipWs_cons_of_not (by decide : jsonWs '{' = false) _]
      simp only [reduceIte]
      rw [ht, skipWs_cons_of_not (by decide : jsonWs '"' = false) _]
      simp only [if_neg (by decide : ¬('"' = '}'))]
      rw [← ht]
      show parseMembers ((dumps ((k, v) :: t)).length + 1)
        (encItems ((k, v) :: t) ++ '}' :: []) = _
      refine parseMembers_enc ((k, v) :: t) (dumps ((k, v) :: t)).length (by simp) hwf ?_ []
      have h1 := encItems_length_ge ((k, v) :: t)
      show ((k, v) :: t).length ≤ _ + 1
      have h2 : (dumps ((k, v) :: t)).length = (encItems ((k, v) :: t)).length + 2 := by
        show ('{' :: (encItems ((k, v) :: t) ++ ['}'])).length = _
        rw [List.length_cons, List.length_append]
        rfl
      omega
    rw [hobj]
    rfl

/-! ## C10: protocol round trip -/

/-- C10: for every flat record of at most 20 keys with wellformed number
literals (the decimal literals `json.dumps` emits for finite floats),
the encoded write line ends in a newline and JSON-decoding the line without
that newline returns a structurally equal record. -/
theorem c10_roundtrip (r : Record) (_hlen : r.length ≤ 20) (hwf : wfRecord r = true) :
    encodeLine r ≠ [] ∧ (encodeLine r).getLast? = some '\n' ∧
      loads ((encodeLine r).dropLast) = some r := by
  refine ⟨by simp [encodeLine], ?_, ?_⟩
  · unfold encodeLine
    rw [List.getLast?_concat]
  · unfold encodeLine
    rw [List.dropLast_concat]
    exact loads_dumps hwf

/-- C10 witness: the round trip at scenario C's record `{"temp": 21.5}`. -/
theorem c10_witness :
    ([(("temp".data : List Char), (⟨false, ['2', '1'], some ['5'], none⟩ : JNum))] :
        Record).length ≤ 20 ∧
      wfRecord [("temp".data, ⟨false, ['2', '1'], some ['5'], none⟩)] = true ∧
      loads ((encodeLine
          [("temp".data, ⟨false, ['2', '1'], some ['5'], none⟩)]).dropLast) =
        some [("temp".data, ⟨false, ['2', '1'], some ['5'], none⟩)] :=
  ⟨by decide, by decide,
    (c10_roundtrip [("temp".data, ⟨false, ['2', '1'], some ['5'], none⟩)]
      (by decide) (by decide)).2.2⟩

end TsStore
